import Mathlib

/-!
# Verification of the oauth2-proxy session-state lifecycle

Shallow embedding of the session-state codec (`pkg/apis/sessions`), the
redis ticket-backed session store (`pkg/sessions/redis`) and the default
provider refresh contract (`providers/provider_default.go`).

Modelling conventions:
* Go strings carrying structured wire data (cookie values, ticket strings)
  are modelled as `List Char` (`GoStr`); session field values stay `String`.
* `time.Time` values are modelled as `Int` unix seconds; the zero time is `0`
  and a nil `*time.Time` is `none`.
* Go byte slices are `List Nat` (the claims never depend on byte wrap-around).
* The JSON text produced by `encoding/json` is modelled at the level of the
  JSON object it denotes: an association list of field name to JSON value
  (`JObj`).  `json.Marshal` of `SessionState` with its `omitempty` tags is
  `marshalSessionState`; `json.Unmarshal` into `SessionState` is
  `unmarshalSessionState`.  The byte/text layer between a `JObj` and the
  bytes stored in redis is an injective serialisation, abstracted as a
  `PayloadCodec` with its round-trip law (`PayloadCodecOK`).
* The `pkg/encryption` package is not part of the sources under inspection
  (only its tests are), so the cipher and the cookie signer are modelled
  from the spec; see `Cipher`, `Signer`, `SignedValue`, `Validate` below.
* Randomness (`crypto/rand`) is an infinite byte stream `RandStream`
  together with a read position; reading never fails.
-/

/-- `SessionState` from `pkg/apis/sessions/session_state.go`: the
authenticated identity record.  Field order and names follow the Go struct;
`*time.Time` fields are `Option Int` (unix seconds, `0` = Go's zero time). -/
structure SessionState where
  AccessToken : String
  IDToken : String
  CreatedAt : Option Int
  ExpiresOn : Option Int
  RefreshToken : String
  Email : String
  User : String
  PreferredUsername : String
deriving DecidableEq, Repr

/-- The all-zero `SessionState` (Go's zero value for the struct). -/
def emptySession : SessionState :=
  ⟨"", "", none, none, "", "", "", ""⟩

instance : Inhabited SessionState := ⟨emptySession⟩

/-- `SessionState.IsExpired`: expired iff `ExpiresOn` is set, non-zero and
strictly before the current time. -/
def SessionState.IsExpired (s : SessionState) (now : Int) : Bool :=
  match s.ExpiresOn with
  | some t => t ≠ 0 && t < now
  | none => false

/-- Modelled from the spec: `pkg/encryption`'s `Cipher` (the package's
implementation is absent from the sources; only its tests are present).
`Encrypt` consumes fresh randomness, modelled as a nonce-state `Nat` threaded
through each call; `Decrypt` either recovers a plaintext or fails with a
`DecryptionError` (`none`).  Spec 4.1. -/
structure Cipher where
  Encrypt : String → Nat → String × Nat
  Decrypt : String → Option String

/-- The laws a correctly-implemented cipher satisfies (spec 4.1 and the
`pkg/encryption` tests): decryption inverts encryption, and a ciphertext —
base64 of nonce‖ciphertext — is never the empty string. -/
def CipherOK (c : Cipher) : Prop :=
  (∀ p g, c.Decrypt (c.Encrypt p g).1 = some p) ∧
  (∀ p g, (c.Encrypt p g).1 ≠ "")

/-- A JSON value appearing in a serialised session: a JSON string, or the
RFC3339 timestamp string a `*time.Time` marshals to (held as the instant it
denotes). -/
inductive JValue where
  | str (s : String)
  | time (t : Int)
deriving DecidableEq, Repr

/-- A JSON object: ordered field list. -/
abbrev JObj := List (String × JValue)

/-- One `string` field under `json:",omitempty"`: present iff non-empty. -/
def sfield (k : String) (v : String) : JObj :=
  if v = "" then [] else [(k, JValue.str v)]

/-- One `*time.Time` field under `json:",omitempty"`: present iff non-nil. -/
def tfield (k : String) (t : Option Int) : JObj :=
  match t with
  | none => []
  | some v => [(k, JValue.time v)]

/-- `json.Marshal` of `SessionState`, field for field in struct order. -/
def marshalSessionState (s : SessionState) : JObj :=
  sfield "AccessToken" s.AccessToken ++
  sfield "IDToken" s.IDToken ++
  tfield "CreatedAt" s.CreatedAt ++
  tfield "ExpiresOn" s.ExpiresOn ++
  sfield "RefreshToken" s.RefreshToken ++
  sfield "Email" s.Email ++
  sfield "User" s.User ++
  sfield "PreferredUsername" s.PreferredUsername

/-- First binding of key `k` in a JSON object. -/
def lookupJ : JObj → String → Option JValue
  | [], _ => none
  | p :: r, k => if p.1 = k then some p.2 else lookupJ r k

/-- Read a `string` struct field: a missing key is the zero value `""`; a
timestamp-shaped value in a string field is a type mismatch (unmarshal
error). -/
def getStrField (o : JObj) (k : String) : Option String :=
  match lookupJ o k with
  | none => some ""
  | some (JValue.str s) => some s
  | some (JValue.time _) => none

/-- Read a `*time.Time` struct field: a missing key is `nil`; a
non-timestamp string is a parse error. -/
def getTimeField (o : JObj) (k : String) : Option (Option Int) :=
  match lookupJ o k with
  | none => some none
  | some (JValue.time t) => some (some t)
  | some (JValue.str _) => none

/-- `json.Unmarshal` of a session object into `SessionState`. -/
def unmarshalSessionState (o : JObj) : Option SessionState := do
  let a ← getStrField o "AccessToken"
  let i ← getStrField o "IDToken"
  let ca ← getTimeField o "CreatedAt"
  let eo ← getTimeField o "ExpiresOn"
  let rt ← getStrField o "RefreshToken"
  let em ← getStrField o "Email"
  let us ← getStrField o "User"
  let pu ← getStrField o "PreferredUsername"
  pure ⟨a, i, ca, eo, rt, em, us, pu⟩

/-- `c.Encrypt` applied to a field only when it is non-empty, threading the
nonce state — the `if ss.X != "" { ss.X, err = c.Encrypt(ss.X) }` pattern of
`EncodeSessionState`. -/
def encryptField (c : Cipher) (v : String) (g : Nat) : String × Nat :=
  if v = "" then (v, g) else c.Encrypt v g

/-- `EncodeSessionState` (session_state.go:61-111): with no cipher, store
only `Email`, `User` and `PreferredUsername`; with a cipher, encrypt each
non-empty sensitive field in place (in source order: Email, User,
PreferredUsername, AccessToken, IDToken, RefreshToken), then marshal. -/
def SessionState.EncodeSessionState (s : SessionState) (c : Option Cipher)
    (g : Nat) : JObj × Nat :=
  match c with
  | none =>
      (marshalSessionState
        { emptySession with
            Email := s.Email, User := s.User,
            PreferredUsername := s.PreferredUsername }, g)
  | some cph =>
      let em := encryptField cph s.Email g
      let us := encryptField cph s.User em.2
      let pu := encryptField cph s.PreferredUsername us.2
      let ak := encryptField cph s.AccessToken pu.2
      let ik := encryptField cph s.IDToken ak.2
      let rk := encryptField cph s.RefreshToken ik.2
      (marshalSessionState
        { AccessToken := ak.1, IDToken := ik.1,
          CreatedAt := s.CreatedAt, ExpiresOn := s.ExpiresOn,
          RefreshToken := rk.1, Email := em.1, User := us.1,
          PreferredUsername := pu.1 }, rk.2)

/-- Soft decryption, used for the two legacy identity fields (`Email`,
`User`): a non-empty value is decrypted, but a decryption failure keeps the
raw value (session_state.go:129-142). -/
def softDecryptField (c : Cipher) (v : String) : String :=
  if v = "" then v
  else
    match c.Decrypt v with
    | some d => d
    | none => v

/-- Hard decryption, used for the four remaining sensitive fields: a
decryption failure aborts the whole decode (session_state.go:143-166). -/
def hardDecryptField (c : Cipher) (v : String) : Except String String :=
  if v = "" then .ok v
  else
    match c.Decrypt v with
    | some d => .ok d
    | none => .error "decryption error"

/-- The final `if ss.User == "" { ss.User = ss.Email }` default
(session_state.go:168-170). -/
def withDefaultedUser (s : SessionState) : SessionState :=
  if s.User = "" then { s with User := s.Email } else s

/-- `DecodeSessionState` (session_state.go:114-172): unmarshal, then — with
no cipher — keep only the three identity fields, or — with a cipher —
soft-decrypt `Email` and `User` and hard-decrypt the other four sensitive
fields; finally default an empty `User` to `Email`. -/
def DecodeSessionState (o : JObj) (c : Option Cipher) :
    Except String SessionState :=
  match unmarshalSessionState o with
  | none => .error "error unmarshalling session"
  | some ss0 =>
    match c with
    | none =>
        .ok (withDefaultedUser
          { emptySession with
              Email := ss0.Email, User := ss0.User,
              PreferredUsername := ss0.PreferredUsername })
    | some cph =>
        match hardDecryptField cph ss0.PreferredUsername with
        | .error e => .error e
        | .ok pu =>
        match hardDecryptField cph ss0.AccessToken with
        | .error e => .error e
        | .ok ak =>
        match hardDecryptField cph ss0.IDToken with
        | .error e => .error e
        | .ok ik =>
        match hardDecryptField cph ss0.RefreshToken with
        | .error e => .error e
        | .ok rk =>
            .ok (withDefaultedUser
              { ss0 with
                  Email := softDecryptField cph ss0.Email,
                  User := softDecryptField cph ss0.User,
                  PreferredUsername := pu, AccessToken := ak,
                  IDToken := ik, RefreshToken := rk })

/-- `ProviderData` (providers package).  The struct's own fields are
irrelevant to the default refresh behaviour, which ignores the receiver. -/
structure ProviderData where
  mk ::
deriving Inhabited

/-- `ProviderData.RefreshSessionIfNeeded`
(providers/provider_default.go:146-149): the default implementation never
refreshes and never errors. -/
def ProviderData.RefreshSessionIfNeeded (_p : ProviderData)
    (_s : SessionState) : Bool × Option String :=
  (false, none)

/-! ## Wire strings, decimal rendering, hex and base64 -/

/-- Go strings carrying wire data (cookie values, ticket strings). -/
abbrev GoStr := List Char

/-- `strings.Split` on a one-character separator. -/
def splitOnChar (c : Char) : GoStr → List GoStr
  | [] => [[]]
  | x :: xs =>
    if x = c then [] :: splitOnChar c xs
    else
      match splitOnChar c xs with
      | [] => [[x]]
      | p :: ps => (x :: p) :: ps

/-- The decimal digit character for `d < 10`. -/
def decDigitChar (d : Nat) : Char := Char.ofNat (48 + d)

/-- Value of a decimal digit character. -/
def decDigitVal? (c : Char) : Option Nat :=
  if 48 ≤ c.toNat ∧ c.toNat ≤ 57 then some (c.toNat - 48) else none

/-- Decimal rendering of a `Nat`, most significant digit first
(fuel-based so the kernel can evaluate it). -/
def natToStrAux : Nat → Nat → GoStr
  | 0, _ => []
  | fuel + 1, n =>
    if n < 10 then [decDigitChar n]
    else natToStrAux fuel (n / 10) ++ [decDigitChar (n % 10)]

/-- `fmt.Sprintf("%d", n)` for `n : Nat`. -/
def natToStr (n : Nat) : GoStr := natToStrAux (n + 1) n

/-- `fmt.Sprintf("%d", i)` for a possibly-negative unix timestamp. -/
def intToStr (i : Int) : GoStr :=
  if i < 0 then '-' :: natToStr (-i).toNat else natToStr i.toNat

/-- Accumulator loop of `strconv.Atoi`. -/
def atoiCore : Nat → GoStr → Option Nat
  | acc, [] => some acc
  | acc, c :: r =>
    match decDigitVal? c with
    | some d => atoiCore (acc * 10 + d) r
    | none => none

/-- `strconv.Atoi` (sign handling, no digits is an error). -/
def atoi (s : GoStr) : Option Int :=
  match s with
  | [] => none
  | ch :: r =>
    if ch = '-' then
      if r = [] then none else (atoiCore 0 r).map (fun n => -(n : Int))
    else (atoiCore 0 (ch :: r)).map (fun n => (n : Int))

/-- Lower-case hex digit character for `d < 16` (`encoding/hex` alphabet). -/
def hexChar (d : Nat) : Char :=
  if d < 10 then Char.ofNat (48 + d) else Char.ofNat (87 + d)

/-- Value of a hex digit character (upper or lower case accepted). -/
def hexDigitVal? (c : Char) : Option Nat :=
  if 48 ≤ c.toNat ∧ c.toNat ≤ 57 then some (c.toNat - 48)
  else if 97 ≤ c.toNat ∧ c.toNat ≤ 102 then some (c.toNat - 87)
  else if 65 ≤ c.toNat ∧ c.toNat ≤ 70 then some (c.toNat - 55)
  else none

/-- `hex.EncodeToString`: two characters per byte. -/
def hexEncode : List Nat → GoStr
  | [] => []
  | b :: r => hexChar (b / 16) :: hexChar (b % 16) :: hexEncode r

/-- `hex.DecodeString`: fails on odd length or a non-hex character. -/
def hexDecode : GoStr → Option (List Nat)
  | [] => some []
  | [_] => none
  | a :: b :: r => do
    let ha ← hexDigitVal? a
    let hb ← hexDigitVal? b
    let rest ← hexDecode r
    pure ((ha * 16 + hb) :: rest)

/-- `base64.RawURLEncoding` alphabet character for `d < 64`. -/
def b64Char (d : Nat) : Char :=
  if d < 26 then Char.ofNat (65 + d)
  else if d < 52 then Char.ofNat (71 + d)
  else if d < 62 then Char.ofNat (d - 4)
  else if d = 62 then '-' else '_'

/-- Value of a `base64.RawURLEncoding` alphabet character. -/
def b64Val? (c : Char) : Option Nat :=
  if 65 ≤ c.toNat ∧ c.toNat ≤ 90 then some (c.toNat - 65)
  else if 97 ≤ c.toNat ∧ c.toNat ≤ 122 then some (c.toNat - 71)
  else if 48 ≤ c.toNat ∧ c.toNat ≤ 57 then some (c.toNat + 4)
  else if c = '-' then some 62
  else if c = '_' then some 63
  else none

/-- `base64.RawURLEncoding.EncodeToString` (unpadded URL-safe base64). -/
def b64Encode : List Nat → GoStr
  | [] => []
  | [a] => [b64Char (a / 4), b64Char (a % 4 * 16)]
  | [a, b] => [b64Char (a / 4), b64Char (a % 4 * 16 + b / 16), b64Char (b % 16 * 4)]
  | a :: b :: c :: r =>
      b64Char (a / 4) :: b64Char (a % 4 * 16 + b / 16) ::
      b64Char (b % 16 * 4 + c / 64) :: b64Char (c % 64) :: b64Encode r

/-- `base64.RawURLEncoding.DecodeString`: fails on a dangling character or a
character outside the alphabet. -/
def b64Decode : GoStr → Option (List Nat)
  | [] => some []
  | [_] => none
  | [w, x] => do
      let a ← b64Val? w
      let b ← b64Val? x
      pure [a * 4 + b / 16]
  | [w, x, y] => do
      let a ← b64Val? w
      let b ← b64Val? x
      let c ← b64Val? y
      pure [a * 4 + b / 16, b % 16 * 16 + c / 4]
  | w :: x :: y :: z :: r => do
      let a ← b64Val? w
      let b ← b64Val? x
      let c ← b64Val? y
      let d ← b64Val? z
      let rest ← b64Decode r
      pure ((a * 4 + b / 16) :: (b % 16 * 16 + c / 4) :: (c % 4 * 64 + d) :: rest)

/-! ## Cookie signing (modelled from the spec — `pkg/encryption` is absent
from the sources; only `cipher_test.go` is present) -/

/-- Modelled from the spec: the two HMAC signature algorithms of the cookie
signer (current SHA256 and legacy SHA1, spec 4.2), abstracted as functions of
`(seed, cookie name, value, timestamp string)`. -/
structure Signer where
  mac : GoStr → GoStr → GoStr → GoStr → GoStr
  legacyMac : GoStr → GoStr → GoStr → GoStr → GoStr

/-- A real HMAC rendering never contains the `|` separator (signatures are
base64-encoded digests). -/
def SignerOK (sg : Signer) : Prop :=
  ∀ seed name v ts, '|' ∉ sg.mac seed name v ts

/-- An `http.Cookie`, restricted to the fields the session stores use. -/
structure Cookie where
  Name : GoStr
  Value : GoStr
  Expires : Int
deriving DecidableEq, Repr

/-- Modelled from the spec: `encryption.SignedValue` — the signed cookie
envelope `value | timestamp | signature`, signed with the current algorithm
(spec 3 `SignedCookieValue`, 4.2). -/
def SignedValue (sg : Signer) (seed name value : GoStr) (now : Int) : GoStr :=
  value ++ '|' :: intToStr now ++ '|' :: sg.mac seed name value (intToStr now)

/-- Modelled from the spec: `encryption.Validate` — extract
`value|timestamp|signature`, reject a signature matching neither algorithm,
a timestamp in the future, or one older than `maxAge`; otherwise return the
raw value and the parsed timestamp (spec 4.2). -/
def Validate (sg : Signer) (now : Int) (seed : GoStr) (cookie : Cookie)
    (maxAge : Int) : Option (GoStr × Int) :=
  match splitOnChar '|' cookie.Value with
  | [v, tsStr, sig] =>
    if sig = sg.mac seed cookie.Name v tsStr ∨
        sig = sg.legacyMac seed cookie.Name v tsStr then
      match atoi tsStr with
      | none => none
      | some ts =>
        if now < ts then none
        else if maxAge < now - ts then none
        else some (v, ts)
    else none
  | _ => none

/-! ## Tickets (`pkg/sessions/redis/redis_store.go`) -/

/-- `TicketData` (redis_store.go:27-30): hex-encoded ticket ID plus raw
per-session secret bytes. -/
structure TicketData where
  TicketID : GoStr
  Secret : List Nat
deriving DecidableEq, Repr

/-- `TicketData.asHandle` (redis_store.go:310-312): `"<prefix>-<ticketID>"`. -/
def TicketData.asHandle (ticket : TicketData) (pfx : GoStr) : GoStr :=
  pfx ++ '-' :: ticket.TicketID

/-- `TicketData.encodeTicket` (redis_store.go:344-348):
`"<prefix>-<ticketID>.<base64(secret)>"`. -/
def TicketData.encodeTicket (ticket : TicketData) (pfx : GoStr) : GoStr :=
  ticket.asHandle pfx ++ '.' :: b64Encode ticket.Secret

/-- `decodeTicket` (redis_store.go:314-342): require the cookie-name prefix,
split the remainder on `.` into exactly two parts, require the ticket ID to
be hex-decodable and the secret to be base64-decodable. -/
def decodeTicket (cookieName : GoStr) (ticketString : GoStr) :
    Option TicketData :=
  let pfx := cookieName ++ ['-']
  if pfx.isPrefixOf ticketString then
    match splitOnChar '.' (ticketString.drop pfx.length) with
    | [ticketID, secretB64] =>
      match hexDecode ticketID with
      | none => none
      | some _ =>
        match b64Decode secretB64 with
        | none => none
        | some secret => some ⟨ticketID, secret⟩
    | _ => none
  else none

/-- `crypto/rand.Reader`: an infinite stream of random bytes. -/
abbrev RandStream := Nat → Fin 256

/-- `io.ReadFull(rand.Reader, buf)` for an `n`-byte buffer at stream
position `pos`. -/
def randRead (r : RandStream) (pos n : Nat) : List Nat :=
  (List.range n).map fun i => (r (pos + i)).val

/-- `newTicket` (redis_store.go:291-308): a random 16-byte ID, hex-encoded,
and an independent random 16-byte (`aes.BlockSize`) secret.  Randomness
never fails in the model, so no error case remains. -/
def newTicket (r : RandStream) (pos : Nat) : TicketData × Nat :=
  let rawID := randRead r pos 16
  let ticketID := hexEncode rawID
  let secret := randRead r (pos + 16) 16
  ({ TicketID := ticketID, Secret := secret }, pos + 32)

/-! ## AES-CFB (`crypto/aes`, `crypto/cipher`) -/

/-- The AES block permutation family, abstract: `enc key block`. -/
structure AESBlock where
  enc : List Nat → List Nat → List Nat

/-- An AES block function always produces a full 16-byte block. -/
def AESOK (A : AESBlock) : Prop := ∀ k b, (A.enc k b).length = 16

/-- `aes.NewCipher`: a key whose length is not 16, 24 or 32 bytes yields
`KeySizeError`; otherwise the keyed block function. -/
def aesNewCipher (A : AESBlock) (key : List Nat) :
    Except String (List Nat → List Nat) :=
  if key.length = 16 ∨ key.length = 24 ∨ key.length = 32 then .ok (A.enc key)
  else .error "crypto/aes: invalid key size"

/-- Byte-wise XOR, truncating to the shorter operand. -/
def xorBytes (xs ks : List Nat) : List Nat := xs.zipWith (· ^^^ ·) ks

/-- CFB-mode encryption: each 16-byte chunk is XORed with the encryption of
the shift register, and the resulting ciphertext chunk becomes the next
register value (fuel-based; `fuel ≥ input.length` suffices). -/
def cfbEncryptAux (Ek : List Nat → List Nat) :
    Nat → List Nat → List Nat → List Nat
  | 0, _, _ => []
  | fuel + 1, reg, input =>
    if input = [] then []
    else
      let c := xorBytes (input.take 16) (Ek reg)
      c ++ cfbEncryptAux Ek fuel c (input.drop 16)

/-- CFB-mode decryption: the register is fed with the *ciphertext* chunk. -/
def cfbDecryptAux (Ek : List Nat → List Nat) :
    Nat → List Nat → List Nat → List Nat
  | 0, _, _ => []
  | fuel + 1, reg, input =>
    if input = [] then []
    else
      let cchunk := input.take 16
      let p := xorBytes cchunk (Ek reg)
      p ++ cfbDecryptAux Ek fuel cchunk (input.drop 16)

/-- `cipher.NewCFBEncrypter(block, iv)` followed by one whole-message
`XORKeyStream`. -/
def cfbEncrypt (Ek : List Nat → List Nat) (iv input : List Nat) : List Nat :=
  cfbEncryptAux Ek input.length iv input

/-- `cipher.NewCFBDecrypter(block, iv)` followed by one whole-message
`XORKeyStream`. -/
def cfbDecrypt (Ek : List Nat → List Nat) (iv input : List Nat) : List Nat :=
  cfbDecryptAux Ek input.length iv input

/-! ## The redis session store (`pkg/sessions/redis/redis_store.go`) -/

/-- The backing cache abstraction `{Get, Set, Del}` over an abstract cache
state `σ` (spec 4.5; the concrete go-redis clients are connection plumbing).
Each operation may fail (network/timeout). -/
structure Client (σ : Type) where
  get : σ → GoStr → Except String (List Nat)
  set : σ → GoStr → List Nat → Int → Except String σ
  del : σ → GoStr → Except String σ

/-- The byte/text layer between the JSON object of an encoded session and
the byte slice handed to the stream cipher and the cache (`json.Marshal`'s
text output together with Go's string↔[]byte coercions). -/
structure PayloadCodec where
  toBytes : JObj → List Nat
  ofBytes : List Nat → Option JObj

/-- JSON text serialisation is injective: parsing what was printed gives
back the object. -/
def PayloadCodecOK (pc : PayloadCodec) : Prop :=
  ∀ o, pc.ofBytes (pc.toBytes o) = some o

/-- `redis.SessionStore` (redis_store.go:34-38) with the `CookieOptions`
fields it consults (`Name`, `Secret`, `Expire`). -/
structure RedisStore (σ : Type) where
  CookieCipher : Option Cipher
  Name : GoStr
  Secret : GoStr
  Expire : Int
  Client : Client σ

/-- `makeCookie` (redis_store.go:230-242): sign a non-empty value, then
build the response cookie; its expiry is `now + expires`. -/
def RedisStore.makeCookie {σ : Type} (store : RedisStore σ) (sg : Signer)
    (value : GoStr) (expires : Int) (now : Int) : Cookie :=
  let v := if value ≠ [] then SignedValue sg store.Secret store.Name value now
           else value
  { Name := store.Name, Value := v, Expires := now + expires }

/-- `getTicket` (redis_store.go:270-289): reuse the cookie's ticket only if
the cookie is present, passes `Validate`, and its value decodes as a ticket;
otherwise mint a fresh one. -/
def RedisStore.getTicket {σ : Type} (store : RedisStore σ) (sg : Signer)
    (now : Int) (requestCookie : Option Cookie) (r : RandStream) (pos : Nat) :
    TicketData × Nat :=
  match requestCookie with
  | none => newTicket r pos
  | some ck =>
    match Validate sg now store.Secret ck store.Expire with
    | none => newTicket r pos
    | some (val, _) =>
      match decodeTicket store.Name val with
      | none => newTicket r pos
      | some ticket => (ticket, pos)

/-- `storeValue` (redis_store.go:244-266): recover or mint a ticket, encrypt
the encoded session under the ticket secret (secret doubling as CFB IV),
write the ciphertext to the cache under the ticket handle, and return the
ticket encoding. -/
def RedisStore.storeValue {σ : Type} (store : RedisStore σ) (A : AESBlock)
    (sg : Signer) (pc : PayloadCodec) (st : σ) (now : Int) (value : JObj)
    (expiration : Int) (requestCookie : Option Cookie) (r : RandStream)
    (pos : Nat) : Except String (GoStr × σ × Nat) :=
  let tp := store.getTicket sg now requestCookie r pos
  let ticket := tp.1
  match aesNewCipher A ticket.Secret with
  | .error e => .error ("error initiating cipher block " ++ e)
  | .ok Ek =>
    let ciphertext := cfbEncrypt Ek ticket.Secret (pc.toBytes value)
    let handle := ticket.asHandle store.Name
    match store.Client.set st handle ciphertext expiration with
    | .error e => .error e
    | .ok st' => .ok (ticket.encodeTicket store.Name, st', tp.2)

/-- `Save` (redis_store.go:113-141): stamp `CreatedAt` when nil or zero,
encode the session with the cookie-level cipher, store it via `storeValue`,
and emit the ticket cookie signed with timestamp `*s.CreatedAt`.  Returns
the response cookie, the updated session, the new cache state and the new
nonce/randomness positions. -/
def RedisStore.Save {σ : Type} (store : RedisStore σ) (A : AESBlock)
    (sg : Signer) (pc : PayloadCodec) (st : σ) (req : Option Cookie)
    (s : SessionState) (now : Int) (g : Nat) (r : RandStream) (pos : Nat) :
    Except String (Cookie × SessionState × σ × Nat × Nat) :=
  let s' := if s.CreatedAt = none ∨ s.CreatedAt = some 0 then
              { s with CreatedAt := some now }
            else s
  let requestCookie := req
  let vg := s'.EncodeSessionState store.CookieCipher g
  match store.storeValue A sg pc st now vg.1 store.Expire requestCookie r pos with
  | .error e => .error e
  | .ok (ticketString, st', pos') =>
    let ca := s'.CreatedAt.getD 0
    let ticketCookie := store.makeCookie sg ticketString store.Expire ca
    .ok (ticketCookie, s', st', vg.2, pos')

/-- `loadSessionFromString` (redis_store.go:164-188): decode the ticket,
fetch the ciphertext by handle, build the AES block from the ticket secret,
CFB-decrypt with the secret as IV, then decode the session state. -/
def RedisStore.loadSessionFromString {σ : Type} (store : RedisStore σ)
    (A : AESBlock) (pc : PayloadCodec) (st : σ) (value : GoStr) :
    Except String SessionState :=
  match decodeTicket store.Name value with
  | none => .error "failed to decode ticket"
  | some ticket =>
    match store.Client.get st (ticket.asHandle store.Name) with
    | .error e => .error e
    | .ok resultBytes =>
      match aesNewCipher A ticket.Secret with
      | .error e => .error e
      | .ok Ek =>
        let plain := cfbDecrypt Ek ticket.Secret resultBytes
        match pc.ofBytes plain with
        | none => .error "error unmarshalling session"
        | some o => DecodeSessionState o store.CookieCipher

/-- `Load` (redis_store.go:145-161): require the ticket cookie, validate its
signature envelope, then load by ticket value. -/
def RedisStore.Load {σ : Type} (store : RedisStore σ) (A : AESBlock)
    (sg : Signer) (pc : PayloadCodec) (st : σ) (req : Option Cookie)
    (now : Int) : Except String SessionState :=
  match req with
  | none => .error "error loading session: named cookie not present"
  | some ck =>
    match Validate sg now store.Secret ck store.Expire with
    | none => .error "cookie signature not valid"
    | some (val, _) =>
      match store.loadSessionFromString A pc st val with
      | .error e => .error ("error loading session: " ++ e)
      | .ok s => .ok s

/-- `Clear` (redis_store.go:192-227): always emit the expired clearing
cookie first (empty value, `time.Hour * -1`); with no request cookie there
is nothing to clear; a signature-invalid cookie is an error; an
undecodable ticket is ignored; otherwise delete the cache entry, failures
propagating. -/
def RedisStore.Clear {σ : Type} (store : RedisStore σ) (sg : Signer)
    (st : σ) (req : Option Cookie) (now : Int) : Cookie × Except String σ :=
  let clearCookie := store.makeCookie sg [] (-3600) now
  match req with
  | none => (clearCookie, .ok st)
  | some ck =>
    match Validate sg now store.Secret ck store.Expire with
    | none => (clearCookie, .error "cookie signature not valid")
    | some (val, _) =>
      match decodeTicket store.Name val with
      | none => (clearCookie, .ok st)
      | some ticket =>
        match store.Client.del st (ticket.asHandle store.Name) with
        | .error e =>
            (clearCookie, .error ("error clearing cookie from redis: " ++ e))
        | .ok st' => (clearCookie, .ok st')

/-! ## Concrete instances used to evaluate the model on closed inputs -/

/-- A minimal cipher satisfying `CipherOK`: mark the plaintext with a `#`.
Only its laws matter; witnesses use it to evaluate the codec. -/
def testCipher : Cipher where
  Encrypt := fun p g => (String.mk ('#' :: p.data), g)
  Decrypt := fun s =>
    match s.data with
    | '#' :: r => some (String.mk r)
    | _ => none

/-- A minimal signer: constant one-character signatures without `|`. -/
def testSigner : Signer where
  mac := fun _ _ _ _ => ['m']
  legacyMac := fun _ _ _ _ => ['l']

/-- A minimal AES block family: pad/truncate `key ++ block` to 16 bytes. -/
def testAES : AESBlock where
  enc := fun k b => (k ++ b ++ List.replicate 16 0).take 16

/-- Length-prefixed serialisation of a `String` into `List Nat` tokens. -/
def encodeChars (s : String) : List Nat :=
  s.length :: s.data.map Char.toNat

/-- Parse back a length-prefixed string, returning the remainder. -/
def decodeChars : List Nat → Option (String × List Nat)
  | [] => none
  | n :: rest =>
    if n ≤ rest.length then
      some (String.mk ((rest.take n).map Char.ofNat), rest.drop n)
    else none

/-- Serialise one `JValue`. -/
def encodeJVal : JValue → List Nat
  | .str s => 0 :: encodeChars s
  | .time t => if t < 0 then 1 :: 1 :: [(-t).toNat] else 1 :: 0 :: [t.toNat]

/-- Parse back one `JValue`, returning the remainder. -/
def decodeJVal : List Nat → Option (JValue × List Nat)
  | 0 :: r => (decodeChars r).map fun p => (JValue.str p.1, p.2)
  | 1 :: 1 :: m :: r => some (JValue.time (-(m : Int)), r)
  | 1 :: 0 :: m :: r => some (JValue.time (m : Int), r)
  | _ => none

/-- Serialise the fields of a JSON object in order. -/
def encodePairs : JObj → List Nat
  | [] => []
  | p :: r => encodeChars p.1 ++ encodeJVal p.2 ++ encodePairs r

/-- Parse back `n` fields, returning the remainder. -/
def decodePairs : Nat → List Nat → Option (JObj × List Nat)
  | 0, r => some ([], r)
  | n + 1, r => do
    let (k, r1) ← decodeChars r
    let (v, r2) ← decodeJVal r1
    let (o, r3) ← decodePairs n r2
    pure ((k, v) :: o, r3)

/-- Concrete injective `JObj` serialisation: field count, then fields. -/
def jsonToBytes (o : JObj) : List Nat := o.length :: encodePairs o

/-- Concrete `JObj` parser matching `jsonToBytes`. -/
def jsonOfBytes : List Nat → Option JObj
  | [] => none
  | n :: r =>
    match decodePairs n r with
    | some (o, []) => some o
    | _ => none

/-- The concrete payload codec used by closed evaluations. -/
def testCodec : PayloadCodec := ⟨jsonToBytes, jsonOfBytes⟩

/-- The shared cache, modelled as a key-value association list. -/
abbrev Cache := List (GoStr × List Nat)

/-- Cache read: `redis: nil` on a missing key. -/
def cacheGet : Cache → GoStr → Except String (List Nat)
  | [], _ => .error "redis: nil"
  | p :: r, k => if p.1 = k then .ok p.2 else cacheGet r k

/-- Cache write: overwrite the key if present, else append. -/
def cacheSet : Cache → GoStr → List Nat → Cache
  | [], k, v => [(k, v)]
  | p :: r, k, v => if p.1 = k then (k, v) :: r else p :: cacheSet r k v

/-- Cache delete (deleting a missing key is not an error, as in redis). -/
def cacheDel : Cache → GoStr → Cache
  | [], _ => []
  | p :: r, k => if p.1 = k then r else p :: cacheDel r k

/-- A healthy single-node client over the association-list cache. -/
def listClient : Client Cache where
  get := cacheGet
  set := fun st k v _ => .ok (cacheSet st k v)
  del := fun st k => .ok (cacheDel st k)

/-- An arbitrary fixed randomness stream for closed evaluations. -/
def testRand : RandStream := fun i => ⟨i % 256, Nat.mod_lt _ (by omega)⟩


deriving instance DecidableEq for Except

/-! ## Concrete samples for closed evaluations -/

/-- A fully-populated session for closed round-trip evaluations. -/
def w1Session : SessionState := ⟨"at", "it", some 3, some 9, "rt", "e@x", "u", "pu"⟩

/-- A serialised session carrying a raw (pre-encryption-era) email and an
encrypted access token, as `testCipher` encrypts. -/
def c2Obj : JObj := [("Email", JValue.str "rawmail"), ("AccessToken", JValue.str "#tok")]

/-- What `c2Obj` unmarshals to. -/
def c2Unmarshalled : SessionState := ⟨"#tok", "", none, none, "", "rawmail", "", ""⟩

/-- A session with no refresh token, no ID token and no timestamps. -/
def c3Session : SessionState := { emptySession with Email := "e", AccessToken := "a" }

/-- The decode of the encode of `c3Session` under `testCipher`. -/
def c3Decoded : SessionState :=
  match DecodeSessionState ((c3Session.EncodeSessionState (some testCipher) 0).1)
      (some testCipher) with
  | .ok s' => s'
  | .error _ => emptySession

/-- A redis store with no cookie-level cipher configured. -/
def plainStore : RedisStore Cache := ⟨none, ['c'], ['s'], 1000, listClient⟩

/-- A redis store with `testCipher` as the cookie-level cipher. -/
def cipherStore : RedisStore Cache := ⟨some testCipher, ['c'], ['s'], 1000, listClient⟩

/-- A session carrying a token, saved through the no-cipher store. -/
def cexSession : SessionState := { emptySession with AccessToken := "tok", Email := "a@b" }

/-- `Save` of `cexSession` through the no-cipher redis store at time 5. -/
def cexSaveResult : Except String (Cookie × SessionState × Cache × Nat × Nat) :=
  plainStore.Save testAES testSigner testCodec [] none cexSession 5 0 testRand 0

/-- The ticket cookie `cexSaveResult` set. -/
def cexCookie : Cookie :=
  match cexSaveResult with | .ok (ck, _, _, _, _) => ck | .error _ => ⟨[], [], 0⟩

/-- The saved (CreatedAt-stamped) session of `cexSaveResult`. -/
def cexState : SessionState :=
  match cexSaveResult with | .ok (_, s', _, _, _) => s' | .error _ => emptySession

/-- The cache state after `cexSaveResult`. -/
def cexCache : Cache :=
  match cexSaveResult with | .ok (_, _, st', _, _) => st' | .error _ => []

/-- `Load` straight after `cexSaveResult`, carrying the cookie it set. -/
def cexLoaded : Except String SessionState :=
  plainStore.Load testAES testSigner testCodec cexCache (some cexCookie) 6

/-- `Save` of `w1Session` through the cipher-carrying redis store. -/
def w6SaveResult : Except String (Cookie × SessionState × Cache × Nat × Nat) :=
  cipherStore.Save testAES testSigner testCodec [] none w1Session 5 0 testRand 0

/-- The ticket cookie `w6SaveResult` set. -/
def w6Cookie : Cookie :=
  match w6SaveResult with | .ok (ck, _, _, _, _) => ck | .error _ => ⟨[], [], 0⟩

/-- The saved session of `w6SaveResult`. -/
def w6State : SessionState :=
  match w6SaveResult with | .ok (_, s', _, _, _) => s' | .error _ => emptySession

/-- The cache state after `w6SaveResult`. -/
def w6Cache : Cache :=
  match w6SaveResult with | .ok (_, _, st', _, _) => st' | .error _ => []

/-- The nonce state after `w6SaveResult`. -/
def w6G : Nat :=
  match w6SaveResult with | .ok (_, _, _, g', _) => g' | .error _ => 0

/-- The randomness position after `w6SaveResult`. -/
def w6Pos : Nat :=
  match w6SaveResult with | .ok (_, _, _, _, p') => p' | .error _ => 0

/-- A well-formed ticket whose secret is only 3 bytes long. -/
def w5Ticket : TicketData := ⟨['0', '0'], [1, 2, 3]⟩

/-- A validly-signed cookie carrying `w5Ticket`. -/
def w5Cookie : Cookie :=
  ⟨['c'], SignedValue testSigner ['s'] ['c'] (w5Ticket.encodeTicket ['c']) 5, 0⟩

/-- A well-formed ticket whose secret is 5 bytes — not an AES key size. -/
def c9Ticket : TicketData := ⟨['0', '0'], [1, 2, 3, 4, 5]⟩

/-- A validly-signed cookie carrying `c9Ticket`. -/
def c9Cookie : Cookie :=
  ⟨['c'], SignedValue testSigner ['s'] ['c'] (c9Ticket.encodeTicket ['c']) 5, 0⟩

/-- A cache holding an entry under `c9Ticket`'s handle. -/
def c9Cache : Cache := [(c9Ticket.asHandle ['c'], [9, 9, 9])]

/-- A validly-signed cookie whose value is not a ticket encoding. -/
def w10Cookie : Cookie := ⟨['c'], SignedValue testSigner ['s'] ['c'] ['z'] 5, 0⟩

/-! ## Helper lemmas: the JSON field map -/

theorem lookupJ_append (a b : JObj) (k : String) :
    lookupJ (a ++ b) k =
      (match lookupJ a k with | some v => some v | none => lookupJ b k) := by
  induction a with
  | nil => simp [lookupJ]
  | cons p r ih =>
    by_cases h : p.1 = k <;> simp [lookupJ, h, ih]

theorem lookupJ_sfield_self (k v : String) :
    lookupJ (sfield k v) k = if v = "" then none else some (JValue.str v) := by
  by_cases hv : v = "" <;> simp [sfield, hv, lookupJ]

theorem lookupJ_sfield_ne (k q v : String) (h : q ≠ k) :
    lookupJ (sfield k v) q = none := by
  by_cases hv : v = "" <;> simp [sfield, hv, lookupJ, Ne.symm h]

theorem lookupJ_tfield_self (k : String) (t : Option Int) :
    lookupJ (tfield k t) k =
      (match t with | none => none | some v => some (JValue.time v)) := by
  cases t <;> simp [tfield, lookupJ]

theorem lookupJ_tfield_ne (k q : String) (t : Option Int) (h : q ≠ k) :
    lookupJ (tfield k t) q = none := by
  cases t <;> simp [tfield, lookupJ, Ne.symm h]

theorem lookupJ_marshal_AccessToken (s : SessionState) :
    lookupJ (marshalSessionState s) "AccessToken" =
      if s.AccessToken = "" then none else some (JValue.str s.AccessToken) := by
  by_cases h : s.AccessToken = "" <;>
    simp [marshalSessionState, lookupJ_append, lookupJ_sfield_self, lookupJ_sfield_ne,
      lookupJ_tfield_self, lookupJ_tfield_ne, h]

theorem lookupJ_marshal_IDToken (s : SessionState) :
    lookupJ (marshalSessionState s) "IDToken" =
      if s.IDToken = "" then none else some (JValue.str s.IDToken) := by
  by_cases h : s.IDToken = "" <;>
    simp [marshalSessionState, lookupJ_append, lookupJ_sfield_self, lookupJ_sfield_ne,
      lookupJ_tfield_self, lookupJ_tfield_ne, h]

theorem lookupJ_marshal_CreatedAt (s : SessionState) :
    lookupJ (marshalSessionState s) "CreatedAt" =
      (match s.CreatedAt with | none => none | some v => some (JValue.time v)) := by
  cases h : s.CreatedAt <;>
    simp [marshalSessionState, lookupJ_append, lookupJ_sfield_self, lookupJ_sfield_ne,
      lookupJ_tfield_self, lookupJ_tfield_ne, h]

theorem lookupJ_marshal_ExpiresOn (s : SessionState) :
    lookupJ (marshalSessionState s) "ExpiresOn" =
      (match s.ExpiresOn with | none => none | some v => some (JValue.time v)) := by
  cases h : s.ExpiresOn <;>
    simp [marshalSessionState, lookupJ_append, lookupJ_sfield_self, lookupJ_sfield_ne,
      lookupJ_tfield_self, lookupJ_tfield_ne, h]

theorem lookupJ_marshal_RefreshToken (s : SessionState) :
    lookupJ (marshalSessionState s) "RefreshToken" =
      if s.RefreshToken = "" then none else some (JValue.str s.RefreshToken) := by
  by_cases h : s.RefreshToken = "" <;>
    simp [marshalSessionState, lookupJ_append, lookupJ_sfield_self, lookupJ_sfield_ne,
      lookupJ_tfield_self, lookupJ_tfield_ne, h]

theorem lookupJ_marshal_Email (s : SessionState) :
    lookupJ (marshalSessionState s) "Email" =
      if s.Email = "" then none else some (JValue.str s.Email) := by
  by_cases h : s.Email = "" <;>
    simp [marshalSessionState, lookupJ_append, lookupJ_sfield_self, lookupJ_sfield_ne,
      lookupJ_tfield_self, lookupJ_tfield_ne, h]

theorem lookupJ_marshal_User (s : SessionState) :
    lookupJ (marshalSessionState s) "User" =
      if s.User = "" then none else some (JValue.str s.User) := by
  by_cases h : s.User = "" <;>
    simp [marshalSessionState, lookupJ_append, lookupJ_sfield_self, lookupJ_sfield_ne,
      lookupJ_tfield_self, lookupJ_tfield_ne, h]

theorem lookupJ_marshal_PreferredUsername (s : SessionState) :
    lookupJ (marshalSessionState s) "PreferredUsername" =
      if s.PreferredUsername = "" then none
      else some (JValue.str s.PreferredUsername) := by
  by_cases h : s.PreferredUsername = "" <;>
    simp [marshalSessionState, lookupJ_append, lookupJ_sfield_self, lookupJ_sfield_ne,
      lookupJ_tfield_self, lookupJ_tfield_ne, h]

theorem getStr_of_lookup {o : JObj} {k v : String}
    (h : lookupJ o k = if v = "" then none else some (JValue.str v)) :
    getStrField o k = some v := by
  unfold getStrField
  rw [h]
  by_cases hv : v = "" <;> simp [hv]

theorem getTime_of_lookup {o : JObj} {k : String} {t : Option Int}
    (h : lookupJ o k = (match t with | none => none | some v => some (JValue.time v))) :
    getTimeField o k = some t := by
  unfold getTimeField
  rw [h]
  cases t <;> simp

theorem unmarshal_marshal (s : SessionState) :
    unmarshalSessionState (marshalSessionState s) = some s := by
  simp [unmarshalSessionState,
    getStr_of_lookup (lookupJ_marshal_AccessToken s),
    getStr_of_lookup (lookupJ_marshal_IDToken s),
    getTime_of_lookup (lookupJ_marshal_CreatedAt s),
    getTime_of_lookup (lookupJ_marshal_ExpiresOn s),
    getStr_of_lookup (lookupJ_marshal_RefreshToken s),
    getStr_of_lookup (lookupJ_marshal_Email s),
    getStr_of_lookup (lookupJ_marshal_User s),
    getStr_of_lookup (lookupJ_marshal_PreferredUsername s)]

/-! ## Helper lemmas: cipher and field decryption -/

theorem testCipher_ok : CipherOK testCipher := by
  constructor
  · intro p g
    rfl
  · intro p g
    intro h
    have h2 : '#' :: p.data = ([] : List Char) := congrArg String.data h
    simp at h2

theorem softDecrypt_encrypt (c : Cipher) (hc : CipherOK c) (v : String) (g : Nat) :
    softDecryptField c (encryptField c v g).1 = v := by
  by_cases hv : v = ""
  · simp [encryptField, softDecryptField, hv]
  · simp [encryptField, softDecryptField, hv, hc.2 v g, hc.1 v g]

theorem hardDecrypt_encrypt (c : Cipher) (hc : CipherOK c) (v : String) (g : Nat) :
    hardDecryptField c (encryptField c v g).1 = .ok v := by
  by_cases hv : v = ""
  · simp [encryptField, hardDecryptField, hv]
  · simp [encryptField, hardDecryptField, hv, hc.2 v g, hc.1 v g]

theorem hardDecrypt_fail (c : Cipher) (v : String) (hv : v ≠ "")
    (hd : c.Decrypt v = none) :
    hardDecryptField c v = .error "decryption error" := by
  simp [hardDecryptField, hv, hd]

theorem decode_some_success (c : Cipher) (o : JObj) (ss0 : SessionState)
    (pu ak ik rk : String)
    (hu : unmarshalSessionState o = some ss0)
    (hpu : hardDecryptField c ss0.PreferredUsername = .ok pu)
    (hak : hardDecryptField c ss0.AccessToken = .ok ak)
    (hik : hardDecryptField c ss0.IDToken = .ok ik)
    (hrk : hardDecryptField c ss0.RefreshToken = .ok rk) :
    DecodeSessionState o (some c) =
      .ok (withDefaultedUser
        { ss0 with
            Email := softDecryptField c ss0.Email,
            User := softDecryptField c ss0.User,
            PreferredUsername := pu, AccessToken := ak,
            IDToken := ik, RefreshToken := rk }) := by
  simp [DecodeSessionState, hu, hpu, hak, hik, hrk]

theorem decode_ok_fields (c : Cipher) (o : JObj) (ss0 s' : SessionState)
    (hu : unmarshalSessionState o = some ss0)
    (h : DecodeSessionState o (some c) = .ok s') :
    s'.CreatedAt = ss0.CreatedAt ∧ s'.ExpiresOn = ss0.ExpiresOn ∧
    s'.Email = softDecryptField c ss0.Email ∧
    s'.User = (if softDecryptField c ss0.User = ""
               then softDecryptField c ss0.Email
               else softDecryptField c ss0.User) ∧
    hardDecryptField c ss0.PreferredUsername = .ok s'.PreferredUsername ∧
    hardDecryptField c ss0.AccessToken = .ok s'.AccessToken ∧
    hardDecryptField c ss0.IDToken = .ok s'.IDToken ∧
    hardDecryptField c ss0.RefreshToken = .ok s'.RefreshToken := by
  simp only [DecodeSessionState, hu] at h
  rcases hpu : hardDecryptField c ss0.PreferredUsername with epu | pu
  · simp only [hpu] at h
    cases h
  simp only [hpu] at h
  rcases hak : hardDecryptField c ss0.AccessToken with eak | ak
  · simp only [hak] at h
    cases h
  simp only [hak] at h
  rcases hik : hardDecryptField c ss0.IDToken with eik | ik
  · simp only [hik] at h
    cases h
  simp only [hik] at h
  rcases hrk : hardDecryptField c ss0.RefreshToken with erk | rk
  · simp only [hrk] at h
    cases h
  simp only [hrk] at h
  simp only [Except.ok.injEq] at h
  subst h
  by_cases huser : softDecryptField c ss0.User = "" <;>
    simp [withDefaultedUser, huser, hpu, hak, hik, hrk]

theorem decode_encode_some (c : Cipher) (hc : CipherOK c) (s : SessionState)
    (g : Nat) :
    DecodeSessionState (s.EncodeSessionState (some c) g).1 (some c) =
      .ok { s with User := if s.User = "" then s.Email else s.User } := by
  by_cases hu : s.User = "" <;>
    simp [SessionState.EncodeSessionState, DecodeSessionState, unmarshal_marshal,
      hardDecrypt_encrypt c hc, softDecrypt_encrypt c hc, withDefaultedUser, hu]

/-! ## Claims C1 and C8 -/

/-- C1: For every `SessionState` `s` and every configured cipher `c`,
`DecodeSessionState (EncodeSessionState s c) c` succeeds and reproduces every
field of `s`, except that when `s.User` is empty the decoded `User` equals
`s.Email`. -/
theorem claim_C1 (c : Cipher) (hc : CipherOK c) (s : SessionState) (g : Nat) :
    DecodeSessionState (s.EncodeSessionState (some c) g).1 (some c) =
      .ok { s with User := if s.User = "" then s.Email else s.User } :=
  decode_encode_some c hc s g

/-- Witness for C1 on a fully-populated concrete session and `testCipher`. -/
theorem claim_C1_witness :
    DecodeSessionState ((w1Session.EncodeSessionState (some testCipher) 0).1)
        (some testCipher) =
      .ok { w1Session with
              User := if w1Session.User = "" then w1Session.Email
                      else w1Session.User } :=
  claim_C1 testCipher testCipher_ok w1Session 0

/-- C8: The default provider's `RefreshSessionIfNeeded` returns
`(false, nil)` for every session state, including one whose `ExpiresOn` lies
in the past: it never refreshes and never reports an error. -/
theorem claim_C8 (p : ProviderData) (s : SessionState) (now : Int) :
    (s.IsExpired now = true → p.RefreshSessionIfNeeded s = (false, none)) ∧
    p.RefreshSessionIfNeeded s = (false, none) :=
  ⟨fun _ => rfl, rfl⟩

/-- Witness for C8 on a session expired well before `now = 5`. -/
theorem claim_C8_witness :
    ({ emptySession with ExpiresOn := some 1 } : SessionState).IsExpired 5 = true ∧
    ProviderData.RefreshSessionIfNeeded ⟨⟩
        { emptySession with ExpiresOn := some 1 } = (false, none) :=
  ⟨by decide,
   (claim_C8 ⟨⟩ { emptySession with ExpiresOn := some 1 } 5).1 (by decide)⟩

/-! ## Claims C4, C3, C2 -/

theorem decode_encode_none (s : SessionState) (g : Nat) :
    DecodeSessionState (s.EncodeSessionState none g).1 none =
      .ok { emptySession with
              Email := s.Email,
              User := if s.User = "" then s.Email else s.User,
              PreferredUsername := s.PreferredUsername } := by
  by_cases hu : s.User = "" <;>
    simp [SessionState.EncodeSessionState, DecodeSessionState, unmarshal_marshal,
      withDefaultedUser, hu, emptySession]

/-- C4: With no cipher configured, `EncodeSessionState` serialises only the
`Email`, `User` and `PreferredUsername` fields — never the access, ID or
refresh tokens nor the timestamps — and decoding the result yields a state
retaining only those three identity fields (an empty `User` defaulting to
`Email`, the decode invariant), with every token field absent. -/
theorem claim_C4 (s : SessionState) (g : Nat) :
    (s.EncodeSessionState none g).1 =
      sfield "Email" s.Email ++ sfield "User" s.User ++
      sfield "PreferredUsername" s.PreferredUsername ∧
    lookupJ (s.EncodeSessionState none g).1 "AccessToken" = none ∧
    lookupJ (s.EncodeSessionState none g).1 "IDToken" = none ∧
    lookupJ (s.EncodeSessionState none g).1 "RefreshToken" = none ∧
    lookupJ (s.EncodeSessionState none g).1 "CreatedAt" = none ∧
    lookupJ (s.EncodeSessionState none g).1 "ExpiresOn" = none ∧
    DecodeSessionState (s.EncodeSessionState none g).1 none =
      .ok { emptySession with
              Email := s.Email,
              User := if s.User = "" then s.Email else s.User,
              PreferredUsername := s.PreferredUsername } := by
  refine ⟨?_, ?_, ?_, ?_, ?_, ?_, decode_encode_none s g⟩
  · simp [SessionState.EncodeSessionState, marshalSessionState, sfield, tfield,
      emptySession]
  · simp [SessionState.EncodeSessionState, lookupJ_marshal_AccessToken, emptySession]
  · simp [SessionState.EncodeSessionState, lookupJ_marshal_IDToken, emptySession]
  · simp [SessionState.EncodeSessionState, lookupJ_marshal_RefreshToken, emptySession]
  · simp [SessionState.EncodeSessionState, lookupJ_marshal_CreatedAt, emptySession]
  · simp [SessionState.EncodeSessionState, lookupJ_marshal_ExpiresOn, emptySession]

/-- C3: Field presence is preserved by the serialised format: for every
`SessionState` (under either cipher mode), a field that is absent before
`EncodeSessionState` — the zero value `""` for a token, `nil` for a
timestamp — appears in the serialised object as an absent key (never as an
empty-string value), and decodes back as absent. -/
theorem claim_C3 (c : Option Cipher) (s : SessionState) (g : Nat) :
    (s.RefreshToken = "" →
        lookupJ (s.EncodeSessionState c g).1 "RefreshToken" = none ∧
        ∀ s', DecodeSessionState (s.EncodeSessionState c g).1 c = .ok s' →
          s'.RefreshToken = "") ∧
    (s.AccessToken = "" →
        lookupJ (s.EncodeSessionState c g).1 "AccessToken" = none ∧
        ∀ s', DecodeSessionState (s.EncodeSessionState c g).1 c = .ok s' →
          s'.AccessToken = "") ∧
    (s.IDToken = "" →
        lookupJ (s.EncodeSessionState c g).1 "IDToken" = none ∧
        ∀ s', DecodeSessionState (s.EncodeSessionState c g).1 c = .ok s' →
          s'.IDToken = "") ∧
    (s.CreatedAt = none →
        lookupJ (s.EncodeSessionState c g).1 "CreatedAt" = none ∧
        ∀ s', DecodeSessionState (s.EncodeSessionState c g).1 c = .ok s' →
          s'.CreatedAt = none) ∧
    (s.ExpiresOn = none →
        lookupJ (s.EncodeSessionState c g).1 "ExpiresOn" = none ∧
        ∀ s', DecodeSessionState (s.EncodeSessionState c g).1 c = .ok s' →
          s'.ExpiresOn = none) := by
  cases c with
  | none =>
    refine ⟨fun h => ⟨?_, ?_⟩, fun h => ⟨?_, ?_⟩, fun h => ⟨?_, ?_⟩,
            fun h => ⟨?_, ?_⟩, fun h => ⟨?_, ?_⟩⟩ <;>
      first
        | (intro s' hs'
           rw [decode_encode_none] at hs'
           simp only [Except.ok.injEq] at hs'
           subst hs'
           simp [emptySession])
        | simp [SessionState.EncodeSessionState, lookupJ_marshal_RefreshToken,
            lookupJ_marshal_AccessToken, lookupJ_marshal_IDToken,
            lookupJ_marshal_CreatedAt, lookupJ_marshal_ExpiresOn, emptySession]
  | some cph =>
    constructor
    · intro h
      constructor
      · simp [SessionState.EncodeSessionState, lookupJ_marshal_RefreshToken,
          encryptField, h]
      · intro s' hs'
        simp only [SessionState.EncodeSessionState] at hs'
        have hok := decode_ok_fields cph _ _ s' (unmarshal_marshal _) hs'
        have hrt := hok.2.2.2.2.2.2.2
        simp only [encryptField, h, if_pos rfl] at hrt
        simp [hardDecryptField] at hrt
        exact hrt.symm
    constructor
    · intro h
      constructor
      · simp [SessionState.EncodeSessionState, lookupJ_marshal_AccessToken,
          encryptField, h]
      · intro s' hs'
        simp only [SessionState.EncodeSessionState] at hs'
        have hok := decode_ok_fields cph _ _ s' (unmarshal_marshal _) hs'
        have hat := hok.2.2.2.2.2.1
        simp only [encryptField, h, if_pos rfl] at hat
        simp [hardDecryptField] at hat
        exact hat.symm
    constructor
    · intro h
      constructor
      · simp [SessionState.EncodeSessionState, lookupJ_marshal_IDToken,
          encryptField, h]
      · intro s' hs'
        simp only [SessionState.EncodeSessionState] at hs'
        have hok := decode_ok_fields cph _ _ s' (unmarshal_marshal _) hs'
        have hit := hok.2.2.2.2.2.2.1
        simp only [encryptField, h, if_pos rfl] at hit
        simp [hardDecryptField] at hit
        exact hit.symm
    constructor
    · intro h
      constructor
      · simp [SessionState.EncodeSessionState, lookupJ_marshal_CreatedAt, h]
      · intro s' hs'
        simp only [SessionState.EncodeSessionState] at hs'
        have hok := decode_ok_fields cph _ _ s' (unmarshal_marshal _) hs'
        have hca := hok.1
        simp only [h] at hca
        exact hca
    · intro h
      constructor
      · simp [SessionState.EncodeSessionState, lookupJ_marshal_ExpiresOn, h]
      · intro s' hs'
        simp only [SessionState.EncodeSessionState] at hs'
        have hok := decode_ok_fields cph _ _ s' (unmarshal_marshal _) hs'
        have heo := hok.2.1
        simp only [h] at heo
        exact heo

/-- Witness for C3: `c3Session` has no refresh token; the encoded object has
no `RefreshToken` key and the decoded state has an absent refresh token. -/
theorem claim_C3_witness :
    lookupJ ((c3Session.EncodeSessionState (some testCipher) 0).1)
      "RefreshToken" = none ∧
    c3Decoded.RefreshToken = "" := by
  have h := (claim_C3 (some testCipher) c3Session 0).1 (by rfl)
  exact ⟨h.1, h.2 c3Decoded (by decide)⟩

/-- C2: For every serialised session and configured cipher, decode tolerates
a decryption failure of `Email` and `User` by retaining the raw values (the
decode still succeeds when the four hard fields decrypt), while a decryption
failure of any of `PreferredUsername`, `AccessToken`, `IDToken` or
`RefreshToken` makes the whole decode return an error. -/
theorem claim_C2 (c : Cipher) (o : JObj) (ss0 : SessionState)
    (hu : unmarshalSessionState o = some ss0) :
    (∀ pu ak ik rk,
        hardDecryptField c ss0.PreferredUsername = .ok pu →
        hardDecryptField c ss0.AccessToken = .ok ak →
        hardDecryptField c ss0.IDToken = .ok ik →
        hardDecryptField c ss0.RefreshToken = .ok rk →
        DecodeSessionState o (some c) =
          .ok (withDefaultedUser
            { ss0 with
                Email := softDecryptField c ss0.Email,
                User := softDecryptField c ss0.User,
                PreferredUsername := pu, AccessToken := ak,
                IDToken := ik, RefreshToken := rk })) ∧
    (ss0.Email ≠ "" → c.Decrypt ss0.Email = none →
        softDecryptField c ss0.Email = ss0.Email) ∧
    (ss0.User ≠ "" → c.Decrypt ss0.User = none →
        softDecryptField c ss0.User = ss0.User) ∧
    (ss0.PreferredUsername ≠ "" → c.Decrypt ss0.PreferredUsername = none →
        ¬∃ s', DecodeSessionState o (some c) = .ok s') ∧
    (ss0.AccessToken ≠ "" → c.Decrypt ss0.AccessToken = none →
        ¬∃ s', DecodeSessionState o (some c) = .ok s') ∧
    (ss0.IDToken ≠ "" → c.Decrypt ss0.IDToken = none →
        ¬∃ s', DecodeSessionState o (some c) = .ok s') ∧
    (ss0.RefreshToken ≠ "" → c.Decrypt ss0.RefreshToken = none →
        ¬∃ s', DecodeSessionState o (some c) = .ok s') := by
  refine ⟨fun pu ak ik rk hpu hak hik hrk =>
            decode_some_success c o ss0 pu ak ik rk hu hpu hak hik hrk,
          fun h1 h2 => by simp [softDecryptField, h1, h2],
          fun h1 h2 => by simp [softDecryptField, h1, h2],
          fun h1 h2 => ?_, fun h1 h2 => ?_, fun h1 h2 => ?_, fun h1 h2 => ?_⟩ <;>
    · rintro ⟨s', hs'⟩
      have hok := decode_ok_fields c o ss0 s' hu hs'
      first
        | (have hx := hok.2.2.2.2.1
           rw [hardDecrypt_fail c _ h1 h2] at hx
           cases hx)
        | (have hx := hok.2.2.2.2.2.1
           rw [hardDecrypt_fail c _ h1 h2] at hx
           cases hx)
        | (have hx := hok.2.2.2.2.2.2.1
           rw [hardDecrypt_fail c _ h1 h2] at hx
           cases hx)
        | (have hx := hok.2.2.2.2.2.2.2
           rw [hardDecrypt_fail c _ h1 h2] at hx
           cases hx)

/-- Witness for C2 on `c2Obj`: the raw legacy email survives decode while
the encrypted access token decrypts, and the decode as a whole succeeds. -/
theorem claim_C2_witness :
    DecodeSessionState c2Obj (some testCipher) =
      .ok (withDefaultedUser
        { c2Unmarshalled with
            Email := softDecryptField testCipher c2Unmarshalled.Email,
            User := softDecryptField testCipher c2Unmarshalled.User,
            PreferredUsername := "", AccessToken := "tok",
            IDToken := "", RefreshToken := "" }) ∧
    softDecryptField testCipher c2Unmarshalled.Email = c2Unmarshalled.Email := by
  have h := claim_C2 testCipher c2Obj c2Unmarshalled (by decide)
  exact ⟨h.1 "" "tok" "" "" (by decide) (by decide) (by decide) (by decide),
         h.2.1 (by decide) (by decide)⟩

/-! ## Helper lemmas: splitting, decimal rendering -/

theorem splitOnChar_ne_nil (c : Char) (s : GoStr) : splitOnChar c s ≠ [] := by
  cases s with
  | nil => simp [splitOnChar]
  | cons x xs =>
    by_cases hx : x = c
    · simp [splitOnChar, hx]
    · simp only [splitOnChar, hx, if_false]
      cases splitOnChar c xs <;> simp

theorem splitOnChar_not_mem (c : Char) (s : GoStr) (h : c ∉ s) :
    splitOnChar c s = [s] := by
  induction s with
  | nil => rfl
  | cons x xs ih =>
    have hx : ¬x = c := fun he => h (by simp [he])
    have hxs : c ∉ xs := fun hm => h (List.mem_cons_of_mem _ hm)
    simp [splitOnChar, hx, ih hxs]

theorem splitOnChar_append (c : Char) (a b : GoStr) (ha : c ∉ a) :
    splitOnChar c (a ++ c :: b) = a :: splitOnChar c b := by
  induction a with
  | nil => simp [splitOnChar]
  | cons x xs ih =>
    have hx : ¬x = c := fun he => ha (by simp [he])
    have hxs : c ∉ xs := fun hm => ha (List.mem_cons_of_mem _ hm)
    simp only [List.cons_append, splitOnChar, hx, if_false, List.append_eq]
    rw [ih hxs]

theorem splitOnChar_two (c : Char) (a b : GoStr) (ha : c ∉ a) (hb : c ∉ b) :
    splitOnChar c (a ++ c :: b) = [a, b] := by
  rw [splitOnChar_append c a b ha, splitOnChar_not_mem c b hb]

theorem splitOnChar_three (c : Char) (a b d : GoStr)
    (ha : c ∉ a) (hb : c ∉ b) (hd : c ∉ d) :
    splitOnChar c (a ++ c :: (b ++ c :: d)) = [a, b, d] := by
  rw [splitOnChar_append c a _ ha, splitOnChar_append c b d hb,
    splitOnChar_not_mem c d hd]

theorem splitOnChar_eq_single (c : Char) (s b : GoStr)
    (h : splitOnChar c s = [b]) : s = b ∧ c ∉ b := by
  induction s generalizing b with
  | nil =>
    simp [splitOnChar] at h
    subst h
    simp
  | cons x xs ih =>
    by_cases hx : x = c
    · subst hx
      simp only [splitOnChar, if_pos rfl] at h
      have := splitOnChar_ne_nil x xs
      cases hsp : splitOnChar x xs with
      | nil => exact absurd hsp this
      | cons p ps => rw [hsp] at h; cases h
    · simp only [splitOnChar, hx, if_false] at h
      cases hsp : splitOnChar c xs with
      | nil => exact absurd hsp (splitOnChar_ne_nil c xs)
      | cons p ps =>
        rw [hsp] at h
        have hb : x :: p = b ∧ ps = [] := by simpa using h
        obtain ⟨hb1, hb2⟩ := hb
        have hb1 := hb1.symm
        subst hb1; subst hb2
        obtain ⟨hxs, hcp⟩ := ih p (by rw [hsp])
        subst hxs
        refine ⟨rfl, ?_⟩
        intro hmem
        rcases List.mem_cons.1 hmem with h1 | h1
        · exact hx h1.symm
        · exact hcp h1

theorem splitOnChar_eq_pair (c : Char) (s a b : GoStr)
    (h : splitOnChar c s = [a, b]) : s = a ++ c :: b ∧ c ∉ a ∧ c ∉ b := by
  induction s generalizing a with
  | nil => simp [splitOnChar] at h
  | cons x xs ih =>
    by_cases hx : x = c
    · subst hx
      simp only [splitOnChar, if_pos rfl] at h
      have ha : [] = a ∧ splitOnChar x xs = [b] := by simpa using h
      obtain ⟨ha1, ha2⟩ := ha
      have ha1 := ha1.symm
      subst ha1
      obtain ⟨hxs, hcb⟩ := splitOnChar_eq_single x xs b ha2
      subst hxs
      exact ⟨rfl, by simp, hcb⟩
    · simp only [splitOnChar, hx, if_false] at h
      cases hsp : splitOnChar c xs with
      | nil => exact absurd hsp (splitOnChar_ne_nil c xs)
      | cons p ps =>
        rw [hsp] at h
        have ha : x :: p = a ∧ ps = [b] := by simpa using h
        obtain ⟨ha1, ha2⟩ := ha
        have ha1 := ha1.symm
        subst ha1; subst ha2
        obtain ⟨hxs, hcp, hcb⟩ := ih p (by rw [hsp])
        subst hxs
        refine ⟨rfl, ?_, hcb⟩
        intro hmem
        rcases List.mem_cons.1 hmem with h1 | h1
        · exact hx h1.symm
        · exact hcp h1

theorem decDigitVal_decDigitChar (d : Nat) (h : d < 10) :
    decDigitVal? (decDigitChar d) = some d := by
  interval_cases d <;> decide

theorem decDigitChar_ne_pipe (d : Nat) (h : d < 10) : decDigitChar d ≠ '|' := by
  interval_cases d <;> decide

theorem natToStrAux_ne_nil (fuel n : Nat) (hf : n < fuel) :
    natToStrAux fuel n ≠ [] := by
  cases fuel with
  | zero => omega
  | succ f =>
    by_cases h : n < 10 <;> simp [natToStrAux, h]

theorem natToStrAux_chars (fuel n : Nat) (hf : n < fuel) :
    ∀ ch ∈ natToStrAux fuel n, ∃ d, d < 10 ∧ ch = decDigitChar d := by
  induction fuel generalizing n with
  | zero => omega
  | succ f ih =>
    by_cases h : n < 10
    · simp only [natToStrAux, h, if_true]
      intro ch hch
      simp at hch
      exact ⟨n, h, hch⟩
    · simp only [natToStrAux, h, if_false]
      intro ch hch
      rcases List.mem_append.1 hch with h1 | h1
      · exact ih (n / 10) (by omega) ch h1
      · simp at h1
        exact ⟨n % 10, by omega, h1⟩

theorem atoiCore_append (acc : Nat) (a b : GoStr) :
    atoiCore acc (a ++ b) =
      (match atoiCore acc a with
        | some m => atoiCore m b
        | none => none) := by
  induction a generalizing acc with
  | nil => simp [atoiCore]
  | cons ch r ih =>
    simp only [List.cons_append, atoiCore]
    cases decDigitVal? ch with
    | none => simp
    | some d => simp [ih]

theorem atoiCore_natToStrAux (fuel n : Nat) (hf : n < fuel) (acc : Nat) :
    ∃ k, atoiCore acc (natToStrAux fuel n) = some (acc * 10 ^ k + n) := by
  induction fuel generalizing n acc with
  | zero => omega
  | succ f ih =>
    by_cases h : n < 10
    · refine ⟨1, ?_⟩
      simp [natToStrAux, h, atoiCore, decDigitVal_decDigitChar n h]
      try omega
    · simp only [natToStrAux, h, if_false]
      rw [atoiCore_append]
      obtain ⟨k, hk⟩ := ih (n / 10) (by omega) acc
      rw [hk]
      refine ⟨k + 1, ?_⟩
      simp only [atoiCore, decDigitVal_decDigitChar (n % 10) (by omega)]
      have hdm : n / 10 * 10 + n % 10 = n := by omega
      have hpow : (10 : Nat) ^ (k + 1) = 10 ^ k * 10 := pow_succ 10 k
      have hcalc : (acc * 10 ^ k + n / 10) * 10 + n % 10 = acc * 10 ^ (k + 1) + n := by
        calc (acc * 10 ^ k + n / 10) * 10 + n % 10
            = acc * (10 ^ k * 10) + (n / 10 * 10 + n % 10) := by ring
          _ = acc * 10 ^ (k + 1) + n := by rw [hdm, hpow]
      rw [hcalc]

theorem atoiCore_natToStr (n : Nat) : atoiCore 0 (natToStr n) = some n := by
  obtain ⟨k, hk⟩ := atoiCore_natToStrAux (n + 1) n (by omega) 0
  simpa using hk

theorem natToStr_chars (n : Nat) :
    ∀ ch ∈ natToStr n, ∃ d, d < 10 ∧ ch = decDigitChar d :=
  natToStrAux_chars (n + 1) n (by omega)

theorem natToStr_ne_nil (n : Nat) : natToStr n ≠ [] :=
  natToStrAux_ne_nil (n + 1) n (by omega)

theorem atoi_cons (ch : Char) (r : GoStr) :
    atoi (ch :: r) =
      if ch = '-' then
        if r = [] then none else (atoiCore 0 r).map (fun n => -(n : Int))
      else (atoiCore 0 (ch :: r)).map (fun n => (n : Int)) := rfl

theorem atoi_natToStr (n : Nat) : atoi (natToStr n) = some (n : Int) := by
  cases hne : natToStr n with
  | nil => exact absurd hne (natToStr_ne_nil n)
  | cons ch r =>
    have hch : ∃ d, d < 10 ∧ ch = decDigitChar d := by
      apply natToStr_chars n
      rw [hne]
      simp
    obtain ⟨d, hd, hchd⟩ := hch
    have hdash : ¬ch = '-' := by
      subst hchd
      interval_cases d <;> decide
    rw [atoi_cons, if_neg hdash, ← hne, atoiCore_natToStr n]
    rfl

theorem atoi_intToStr (i : Int) : atoi (intToStr i) = some i := by
  by_cases hi : i < 0
  · simp only [intToStr, hi, if_true]
    rw [atoi_cons, if_pos rfl, if_neg (natToStr_ne_nil (-i).toNat),
      atoiCore_natToStr ((-i).toNat)]
    have : (((-i).toNat : Nat) : Int) = -i := by omega
    simp [this]
  · simp only [intToStr, hi, if_false]
    rw [atoi_natToStr]
    congr 1
    omega

theorem intToStr_no_pipe (i : Int) : '|' ∉ intToStr i := by
  intro hmem
  unfold intToStr at hmem
  have hnat : ∀ n : Nat, '|' ∈ natToStr n → False := by
    intro n hn
    obtain ⟨d, hd, hchd⟩ := natToStr_chars n '|' hn
    exact decDigitChar_ne_pipe d hd hchd.symm
  by_cases hi : i < 0
  · simp only [hi, if_true] at hmem
    rcases List.mem_cons.1 hmem with h1 | h1
    · cases h1
    · exact hnat _ h1
  · simp only [hi, if_false] at hmem
    exact hnat _ hmem

/-! ## Helper lemmas: hex and base64 -/

theorem hexDigitVal_hexChar (d : Nat) (h : d < 16) :
    hexDigitVal? (hexChar d) = some d := by
  interval_cases d <;> decide

theorem hexDecode_hexEncode (bs : List Nat) (hb : ∀ b ∈ bs, b < 256) :
    hexDecode (hexEncode bs) = some bs := by
  induction bs with
  | nil => rfl
  | cons b r ih =>
    have hblt : b < 256 := hb b (by simp)
    have hr : ∀ x ∈ r, x < 256 := fun x hx => hb x (by simp [hx])
    simp only [hexEncode, hexDecode]
    rw [hexDigitVal_hexChar (b / 16) (by omega),
      hexDigitVal_hexChar (b % 16) (by omega), ih hr]
    have hb16 : b / 16 * 16 + b % 16 = b := by omega
    simp [hb16]

theorem hexEncode_chars (bs : List Nat) (hb : ∀ b ∈ bs, b < 256) :
    ∀ ch ∈ hexEncode bs, ∃ d, d < 16 ∧ ch = hexChar d := by
  induction bs with
  | nil => simp [hexEncode]
  | cons b r ih =>
    have hblt : b < 256 := hb b (by simp)
    have hr : ∀ x ∈ r, x < 256 := fun x hx => hb x (by simp [hx])
    intro ch hch
    simp only [hexEncode] at hch
    rcases List.mem_cons.1 hch with h1 | h1
    · exact ⟨b / 16, by omega, h1⟩
    rcases List.mem_cons.1 h1 with h2 | h2
    · exact ⟨b % 16, by omega, h2⟩
    · exact ih hr ch h2

theorem hexChar_ne_dot (d : Nat) (h : d < 16) : hexChar d ≠ '.' := by
  interval_cases d <;> decide

theorem hexChar_ne_pipe (d : Nat) (h : d < 16) : hexChar d ≠ '|' := by
  interval_cases d <;> decide

theorem hexDecode_chars : ∀ (s : GoStr) (bs : List Nat),
    hexDecode s = some bs → ∀ ch ∈ s, (hexDigitVal? ch).isSome
  | [], _, _, ch, hch => by simp at hch
  | [x], bs, h, ch, hch => by simp [hexDecode] at h
  | a :: b :: r, bs, h, ch, hch => by
    simp only [hexDecode] at h
    cases ha : hexDigitVal? a with
    | none => rw [ha] at h; simp at h
    | some da =>
      cases hb2 : hexDigitVal? b with
      | none => rw [ha, hb2] at h; simp at h
      | some db =>
        cases hrd : hexDecode r with
        | none => rw [ha, hb2, hrd] at h; simp at h
        | some rs =>
          rcases List.mem_cons.1 hch with h1 | h1
          · subst h1; simp [ha]
          rcases List.mem_cons.1 h1 with h2 | h2
          · subst h2; simp [hb2]
          · exact hexDecode_chars r rs hrd ch h2

theorem hexDigit_ne_dot (ch : Char) (h : (hexDigitVal? ch).isSome) :
    ch ≠ '.' := by
  intro he
  rw [he] at h
  exact absurd h (by decide)

theorem hexDigit_ne_pipe (ch : Char) (h : (hexDigitVal? ch).isSome) :
    ch ≠ '|' := by
  intro he
  rw [he] at h
  exact absurd h (by decide)

theorem b64Val_b64Char (d : Nat) (h : d < 64) : b64Val? (b64Char d) = some d := by
  interval_cases d <;> decide

theorem b64Char_ne_dot (d : Nat) (h : d < 64) : b64Char d ≠ '.' := by
  interval_cases d <;> decide

theorem b64Char_ne_pipe (d : Nat) (h : d < 64) : b64Char d ≠ '|' := by
  interval_cases d <;> decide

theorem b64Val_lt (ch : Char) (v : Nat) (h : b64Val? ch = some v) : v < 64 := by
  unfold b64Val? at h
  split_ifs at h <;> simp only [Option.some.injEq] at h <;> omega

theorem b64Encode_chars (bs : List Nat) (hb : ∀ b ∈ bs, b < 256) :
    ∀ ch ∈ b64Encode bs, ∃ d, d < 64 ∧ ch = b64Char d := by
  induction bs using b64Encode.induct with
  | case1 => simp [b64Encode]
  | case2 a =>
    have ha : a < 256 := hb a (by simp)
    intro ch hch
    simp only [b64Encode] at hch
    rcases List.mem_cons.1 hch with h1 | h1
    · exact ⟨a / 4, by omega, h1⟩
    rcases List.mem_cons.1 h1 with h2 | h2
    · exact ⟨a % 4 * 16, by omega, h2⟩
    · simp at h2
  | case3 a b =>
    have ha : a < 256 := hb a (by simp)
    have hbb : b < 256 := hb b (by simp)
    intro ch hch
    simp only [b64Encode] at hch
    rcases List.mem_cons.1 hch with h1 | h1
    · exact ⟨a / 4, by omega, h1⟩
    rcases List.mem_cons.1 h1 with h2 | h2
    · exact ⟨a % 4 * 16 + b / 16, by omega, h2⟩
    rcases List.mem_cons.1 h2 with h3 | h3
    · exact ⟨b % 16 * 4, by omega, h3⟩
    · simp at h3
  | case4 a b c r ih =>
    have ha : a < 256 := hb a (by simp)
    have hbb : b < 256 := hb b (by simp)
    have hc : c < 256 := hb c (by simp)
    have hr : ∀ x ∈ r, x < 256 := fun x hx => hb x (by simp [hx])
    intro ch hch
    simp only [b64Encode] at hch
    rcases List.mem_cons.1 hch with h1 | h1
    · exact ⟨a / 4, by omega, h1⟩
    rcases List.mem_cons.1 h1 with h2 | h2
    · exact ⟨a % 4 * 16 + b / 16, by omega, h2⟩
    rcases List.mem_cons.1 h2 with h3 | h3
    · exact ⟨b % 16 * 4 + c / 64, by omega, h3⟩
    rcases List.mem_cons.1 h3 with h4 | h4
    · exact ⟨c % 64, by omega, h4⟩
    · exact ih hr ch h4

theorem b64Decode_b64Encode : ∀ (bs : List Nat), (∀ b ∈ bs, b < 256) →
    b64Decode (b64Encode bs) = some bs
  | [], _ => rfl
  | [a], hb => by
    have ha : a < 256 := hb a (by simp)
    simp only [b64Encode, b64Decode]
    rw [b64Val_b64Char (a / 4) (by omega), b64Val_b64Char (a % 4 * 16) (by omega)]
    have h1 : a / 4 * 4 + a % 4 * 16 / 16 = a := by omega
    have h1' : a / 4 * 4 + a % 4 = a := by omega
    simp [h1, h1']
  | [a, b], hb => by
    have ha : a < 256 := hb a (by simp)
    have hbb : b < 256 := hb b (by simp)
    simp only [b64Encode, b64Decode]
    rw [b64Val_b64Char (a / 4) (by omega),
      b64Val_b64Char (a % 4 * 16 + b / 16) (by omega),
      b64Val_b64Char (b % 16 * 4) (by omega)]
    have h1 : a / 4 * 4 + (a % 4 * 16 + b / 16) / 16 = a := by omega
    have h2 : (a % 4 * 16 + b / 16) % 16 * 16 + b % 16 * 4 / 4 = b := by omega
    have h2' : (a % 4 * 16 + b / 16) % 16 * 16 + b % 16 = b := by omega
    simp [h1, h2, h2']
  | a :: b :: c :: r, hb => by
    have ha : a < 256 := hb a (by simp)
    have hbb : b < 256 := hb b (by simp)
    have hc : c < 256 := hb c (by simp)
    have hr : ∀ x ∈ r, x < 256 := fun x hx => hb x (by simp [hx])
    have hrec := b64Decode_b64Encode r hr
    simp only [b64Encode]
    cases henc : b64Encode r with
    | nil =>
      simp only [b64Decode]
      rw [b64Val_b64Char (a / 4) (by omega),
        b64Val_b64Char (a % 4 * 16 + b / 16) (by omega),
        b64Val_b64Char (b % 16 * 4 + c / 64) (by omega),
        b64Val_b64Char (c % 64) (by omega)]
      rw [henc] at hrec
      simp only [b64Decode, Option.some.injEq] at hrec
      have hre : r = [] := hrec.symm
      subst hre
      have h1 : a / 4 * 4 + (a % 4 * 16 + b / 16) / 16 = a := by omega
      have h2 : (a % 4 * 16 + b / 16) % 16 * 16 + (b % 16 * 4 + c / 64) / 4 = b := by
        omega
      have h3 : (b % 16 * 4 + c / 64) % 4 * 64 + c % 64 = c := by omega
      simp [h1, h2, h3]
    | cons e es =>
      simp only [b64Decode]
      rw [b64Val_b64Char (a / 4) (by omega),
        b64Val_b64Char (a % 4 * 16 + b / 16) (by omega),
        b64Val_b64Char (b % 16 * 4 + c / 64) (by omega),
        b64Val_b64Char (c % 64) (by omega)]
      rw [henc] at hrec
      rw [hrec]
      have h1 : a / 4 * 4 + (a % 4 * 16 + b / 16) / 16 = a := by omega
      have h2 : (a % 4 * 16 + b / 16) % 16 * 16 + (b % 16 * 4 + c / 64) / 4 = b := by
        omega
      have h3 : (b % 16 * 4 + c / 64) % 4 * 64 + c % 64 = c := by omega
      simp [h1, h2, h3]

theorem b64Decode_lt : ∀ (s : GoStr) (bs : List Nat),
    b64Decode s = some bs → ∀ b ∈ bs, b < 256
  | [], bs, h, b, hbm => by
    simp [b64Decode] at h
    subst h
    simp at hbm
  | [x], bs, h, b, hbm => by simp [b64Decode] at h
  | [w, x], bs, h, b, hbm => by
    simp only [b64Decode] at h
    cases hw : b64Val? w with
    | none => rw [hw] at h; simp at h
    | some a =>
      cases hx : b64Val? x with
      | none => rw [hw, hx] at h; simp at h
      | some bb =>
        rw [hw, hx] at h
        simp at h
        subst h
        have h1 := b64Val_lt w a hw
        have h2 := b64Val_lt x bb hx
        simp at hbm
        omega
  | [w, x, y], bs, h, b, hbm => by
    simp only [b64Decode] at h
    cases hw : b64Val? w with
    | none => rw [hw] at h; simp at h
    | some a =>
      cases hx : b64Val? x with
      | none => rw [hw, hx] at h; simp at h
      | some bb =>
        cases hy : b64Val? y with
        | none => rw [hw, hx, hy] at h; simp at h
        | some cc =>
          rw [hw, hx, hy] at h
          simp at h
          subst h
          have h1 := b64Val_lt w a hw
          have h2 := b64Val_lt x bb hx
          have h3 := b64Val_lt y cc hy
          simp at hbm
          rcases hbm with h4 | h4 <;> omega
  | w :: x :: y :: z :: r, bs, h, b, hbm => by
    simp only [b64Decode] at h
    cases hw : b64Val? w with
    | none => rw [hw] at h; simp at h
    | some a =>
      cases hx : b64Val? x with
      | none => rw [hw, hx] at h; simp at h
      | some bb =>
        cases hy : b64Val? y with
        | none => rw [hw, hx, hy] at h; simp at h
        | some cc =>
          cases hz : b64Val? z with
          | none => rw [hw, hx, hy, hz] at h; simp at h
          | some dd =>
            cases hrd : b64Decode r with
            | none => rw [hw, hx, hy, hz, hrd] at h; simp at h
            | some rs =>
              rw [hw, hx, hy, hz, hrd] at h
              simp at h
              subst h
              have h1 := b64Val_lt w a hw
              have h2 := b64Val_lt x bb hx
              have h3 := b64Val_lt y cc hy
              have h4 := b64Val_lt z dd hz
              rcases List.mem_cons.1 hbm with h5 | h5
              · omega
              rcases List.mem_cons.1 h5 with h6 | h6
              · omega
              rcases List.mem_cons.1 h6 with h7 | h7
              · omega
              · exact b64Decode_lt r rs hrd b h7

/-! ## Helper lemmas: signed envelope, tickets, cache, CFB -/

theorem Validate_SignedValue (sg : Signer) (hsg : SignerOK sg)
    (seed name value : GoStr) (ts now maxAge e : Int)
    (hv : '|' ∉ value) (h1 : ts ≤ now) (h2 : now - ts ≤ maxAge) :
    Validate sg now seed ⟨name, SignedValue sg seed name value ts, e⟩ maxAge =
      some (value, ts) := by
  have hsplit : splitOnChar '|' (SignedValue sg seed name value ts) =
      [value, intToStr ts, sg.mac seed name value (intToStr ts)] := by
    unfold SignedValue
    rw [List.append_assoc, List.cons_append]
    exact splitOnChar_three '|' _ _ _ hv (intToStr_no_pipe ts)
      (hsg seed name value (intToStr ts))
  simp only [Validate, hsplit]
  rw [if_pos (Or.inl trivial), atoi_intToStr ts]
  show (if now < ts then none
        else if maxAge < now - ts then none else some (value, ts)) =
      some (value, ts)
  rw [if_neg (by omega), if_neg (by omega)]

theorem isPrefixOf_append_self (a b : GoStr) : a.isPrefixOf (a ++ b) = true := by
  induction a with
  | nil => simp [List.isPrefixOf]
  | cons x xs ih => simp [List.isPrefixOf, ih]

theorem decodeTicket_encodeTicket (name : GoStr) (t : TicketData)
    (hID : ∃ ids, hexDecode t.TicketID = some ids)
    (hSecret : ∀ b ∈ t.Secret, b < 256) :
    decodeTicket name (t.encodeTicket name) = some t := by
  obtain ⟨ids, hids⟩ := hID
  have hdot_id : '.' ∉ t.TicketID := fun hm =>
    hexDigit_ne_dot '.' (hexDecode_chars _ _ hids '.' hm) rfl
  have hdot_b64 : '.' ∉ b64Encode t.Secret := fun hm => by
    obtain ⟨d, hd, hchd⟩ := b64Encode_chars t.Secret hSecret '.' hm
    exact b64Char_ne_dot d hd hchd.symm
  have happ : t.encodeTicket name =
      (name ++ ['-']) ++ (t.TicketID ++ '.' :: b64Encode t.Secret) := by
    simp [TicketData.encodeTicket, TicketData.asHandle]
  rw [happ]
  simp only [decodeTicket, isPrefixOf_append_self, if_true, List.drop_left,
    splitOnChar_two '.' t.TicketID (b64Encode t.Secret) hdot_id hdot_b64, hids,
    b64Decode_b64Encode t.Secret hSecret]

theorem decodeTicket_some (name val : GoStr) (t : TicketData)
    (h : decodeTicket name val = some t) :
    (∃ ids, hexDecode t.TicketID = some ids) ∧ (∀ b ∈ t.Secret, b < 256) := by
  simp only [decodeTicket] at h
  split at h
  · split at h
    · rename_i tid sec hsp
      cases hhex : hexDecode tid with
      | none => simp [hhex] at h
      | some ids =>
        cases hb64 : b64Decode sec with
        | none => simp [hhex, hb64] at h
        | some secret =>
          simp only [hhex, hb64, Option.some.injEq] at h
          subst h
          exact ⟨⟨ids, hhex⟩, b64Decode_lt _ _ hb64⟩
    · cases h
  · cases h

theorem cacheGet_cacheSet (st : Cache) (k : GoStr) (v : List Nat) :
    cacheGet (cacheSet st k v) k = .ok v := by
  induction st with
  | nil => simp [cacheSet, cacheGet]
  | cons p r ih =>
    by_cases hp : p.1 = k <;> simp [cacheSet, cacheGet, hp, ih]

theorem xorBytes_involution (x k : List Nat) (h : x.length ≤ k.length) :
    xorBytes (xorBytes x k) k = x := by
  induction x generalizing k with
  | nil => simp [xorBytes]
  | cons a r ih =>
    cases k with
    | nil => simp at h
    | cons b kr =>
      simp only [xorBytes, List.zipWith] at *
      rw [Nat.xor_cancel_right]
      rw [ih kr (by simpa using h)]

theorem cfbEncryptAux_nil (Ek : List Nat → List Nat) (fuel : Nat)
    (reg : List Nat) : cfbEncryptAux Ek fuel reg [] = [] := by
  cases fuel <;> simp [cfbEncryptAux]

theorem cfbDecryptAux_nil (Ek : List Nat → List Nat) (fuel : Nat)
    (reg : List Nat) : cfbDecryptAux Ek fuel reg [] = [] := by
  cases fuel <;> simp [cfbDecryptAux]

theorem cfbEncryptAux_length (Ek : List Nat → List Nat)
    (hE : ∀ b, (Ek b).length = 16) :
    ∀ (fuel : Nat) (reg input : List Nat), input.length ≤ fuel →
      (cfbEncryptAux Ek fuel reg input).length = input.length := by
  intro fuel
  induction fuel with
  | zero =>
    intro reg input h
    have hnil : input = [] := List.eq_nil_of_length_eq_zero (by omega)
    subst hnil
    rfl
  | succ f ih =>
    intro reg input h
    by_cases hi : input = []
    · simp [cfbEncryptAux, hi]
    · simp only [cfbEncryptAux, hi, if_false]
      rw [List.length_append, ih _ _ (by simp; omega)]
      have hlen : input.length ≠ 0 := by
        intro hz
        exact hi (List.eq_nil_of_length_eq_zero hz)
      simp [xorBytes, hE]
      omega

theorem cfbDecrypt_cfbEncryptAux (Ek : List Nat → List Nat)
    (hE : ∀ b, (Ek b).length = 16) :
    ∀ (fuel : Nat) (reg input : List Nat), input.length ≤ fuel →
      cfbDecryptAux Ek fuel reg (cfbEncryptAux Ek fuel reg input) = input := by
  intro fuel
  induction fuel with
  | zero =>
    intro reg input h
    have hnil : input = [] := List.eq_nil_of_length_eq_zero (by omega)
    subst hnil
    rfl
  | succ f ih =>
    intro reg input h
    by_cases hi : input = []
    · simp [cfbEncryptAux, cfbDecryptAux, hi]
    · have hpos : 0 < input.length := by
        cases input with
        | nil => exact absurd rfl hi
        | cons a r => simp
      simp only [cfbEncryptAux, hi, if_false]
      have hclen : (xorBytes (input.take 16) (Ek reg)).length =
          min 16 input.length := by
        simp [xorBytes, hE]
      have hcne : xorBytes (input.take 16) (Ek reg) ≠ [] := by
        intro hz
        have hz' := congrArg List.length hz
        rw [hclen] at hz'
        simp only [List.length_nil] at hz'
        omega
      by_cases hL : input.length ≤ 16
      · have hdrop : input.drop 16 = [] := List.drop_eq_nil_of_le hL
        rw [hdrop, cfbEncryptAux_nil, List.append_nil]
        have hclen' : (xorBytes (input.take 16) (Ek reg)).length = input.length := by
          rw [hclen]; omega
        simp only [cfbDecryptAux, hcne, if_false]
        have htake : (xorBytes (input.take 16) (Ek reg)).take 16 =
            xorBytes (input.take 16) (Ek reg) :=
          List.take_of_length_le (by rw [hclen']; omega)
        have hdrop2 : (xorBytes (input.take 16) (Ek reg)).drop 16 = [] :=
          List.drop_eq_nil_of_le (by rw [hclen']; omega)
        rw [htake, hdrop2, cfbDecryptAux_nil, List.append_nil]
        have htake16 : input.take 16 = input := List.take_of_length_le hL
        rw [xorBytes_involution _ _ (by rw [List.length_take, hE]; omega)]
        exact htake16
      · push_neg at hL
        have hclen16 : (xorBytes (input.take 16) (Ek reg)).length = 16 := by
          rw [hclen]; omega
        have hdne : xorBytes (input.take 16) (Ek reg) ++
            cfbEncryptAux Ek f (xorBytes (input.take 16) (Ek reg))
              (input.drop 16) ≠ [] := by
          intro hz
          exact hcne (List.append_eq_nil.1 hz).1
        simp only [cfbDecryptAux, hdne, if_false]
        rw [List.take_left' hclen16, List.drop_left' hclen16]
        rw [ih _ _ (by simp; omega)]
        rw [xorBytes_involution _ _ (by rw [List.length_take, hE]; omega)]
        exact List.take_append_drop 16 input

theorem cfbDecrypt_cfbEncrypt (Ek : List Nat → List Nat)
    (hE : ∀ b, (Ek b).length = 16) (iv input : List Nat) :
    cfbDecrypt Ek iv (cfbEncrypt Ek iv input) = input := by
  unfold cfbDecrypt cfbEncrypt
  rw [cfbEncryptAux_length Ek hE input.length iv input (le_refl _)]
  exact cfbDecrypt_cfbEncryptAux Ek hE input.length iv input (le_refl _)

/-! ## Helper lemmas: the concrete payload codec and test instances -/

theorem map_ofNat_toNat (l : List Char) :
    l.map (fun c => Char.ofNat c.toNat) = l := by
  induction l with
  | nil => rfl
  | cons c cs ih => simp [ih, Char.ofNat_toNat]

theorem decodeChars_encodeChars (s : String) (r : List Nat) :
    decodeChars (encodeChars s ++ r) = some (s, r) := by
  simp only [encodeChars, List.cons_append, decodeChars]
  have hlen : s.length = s.data.length := rfl
  have hmaplen : (s.data.map Char.toNat).length = s.data.length := by simp
  have hcond : s.length ≤ (s.data.map Char.toNat ++ r).length := by
    have hl2 : (s.data.map Char.toNat ++ r).length = s.data.length + r.length := by
      simp
    rw [hl2, hlen]
    omega
  rw [if_pos hcond]
  have htake : ((s.data.map Char.toNat ++ r).take s.length).map Char.ofNat =
      s.data := by
    rw [hlen, ← hmaplen, List.take_left, List.map_map]
    exact map_ofNat_toNat s.data
  have hdrop : (s.data.map Char.toNat ++ r).drop s.length = r := by
    rw [hlen, ← hmaplen]
    exact List.drop_left _ _
  rw [htake, hdrop]

theorem decodeJVal_encodeJVal (v : JValue) (r : List Nat) :
    decodeJVal (encodeJVal v ++ r) = some (v, r) := by
  cases v with
  | str s =>
    simp only [encodeJVal, List.cons_append, decodeJVal,
      decodeChars_encodeChars s r]
    rfl
  | time t =>
    by_cases ht : t < 0
    · have hm : ((-t).toNat : Int) = -t := by omega
      simp only [encodeJVal, ht, if_true, List.cons_append, decodeJVal,
        Option.some.injEq, Prod.mk.injEq]
      constructor
      · rw [hm]; congr 1; omega
      · rfl
    · have hm : (t.toNat : Int) = t := by omega
      simp only [encodeJVal, ht, if_false, List.cons_append, decodeJVal,
        Option.some.injEq, Prod.mk.injEq]
      exact ⟨by rw [hm], rfl⟩

theorem decodePairs_encodePairs (o : JObj) (r : List Nat) :
    decodePairs o.length (encodePairs o ++ r) = some (o, r) := by
  induction o generalizing r with
  | nil => simp [encodePairs, decodePairs]
  | cons p ps ih =>
    simp [encodePairs, decodePairs, List.append_assoc,
      decodeChars_encodeChars, decodeJVal_encodeJVal, ih]

theorem testCodec_ok : PayloadCodecOK testCodec := by
  intro o
  show jsonOfBytes (jsonToBytes o) = some o
  have h : decodePairs o.length (encodePairs o) = some (o, []) := by
    have := decodePairs_encodePairs o []
    simpa using this
  simp only [jsonToBytes, jsonOfBytes, h]

theorem testSigner_ok : SignerOK testSigner := by
  intro seed name v ts
  simp [testSigner]

theorem testAES_ok : AESOK testAES := by
  intro k b
  simp [testAES]
  omega

theorem randRead_lt (r : RandStream) (pos n : Nat) :
    ∀ b ∈ randRead r pos n, b < 256 := by
  intro b hb
  simp only [randRead, List.mem_map] at hb
  obtain ⟨i, _, hi⟩ := hb
  rw [← hi]
  exact (r (pos + i)).isLt

theorem randRead_length (r : RandStream) (pos n : Nat) :
    (randRead r pos n).length = n := by
  simp [randRead]

theorem newTicket_wf (r : RandStream) (pos : Nat) :
    (∃ ids, hexDecode (newTicket r pos).1.TicketID = some ids) ∧
    (∀ b ∈ (newTicket r pos).1.Secret, b < 256) := by
  constructor
  · exact ⟨randRead r pos 16,
      hexDecode_hexEncode (randRead r pos 16) (randRead_lt r pos 16)⟩
  · exact randRead_lt r (pos + 16) 16

theorem getTicket_wf {σ : Type} (store : RedisStore σ) (sg : Signer)
    (now : Int) (rc : Option Cookie) (r : RandStream) (pos : Nat) :
    (∃ ids, hexDecode (store.getTicket sg now rc r pos).1.TicketID = some ids) ∧
    (∀ b ∈ (store.getTicket sg now rc r pos).1.Secret, b < 256) := by
  cases rc with
  | none => simpa [RedisStore.getTicket] using newTicket_wf r pos
  | some ck =>
    cases hv : Validate sg now store.Secret ck store.Expire with
    | none => simpa [RedisStore.getTicket, hv] using newTicket_wf r pos
    | some vt =>
      obtain ⟨val, ts⟩ := vt
      cases hd : decodeTicket store.Name val with
      | none => simpa [RedisStore.getTicket, hv, hd] using newTicket_wf r pos
      | some t =>
        simpa [RedisStore.getTicket, hv, hd] using
          decodeTicket_some store.Name val t hd

/-! ## Claims C5, C7, C10, C9 -/

/-- C5: `getTicket` reuses the inbound cookie's ticket only when the cookie
is present, passes signature validation, and its value decodes to a
well-formed ticket (cookie-name prefix, hex ID, base64 secret —
`decodeTicket`); a missing cookie, failed validation or failed decode mints
a fresh ticket whose ID is the hex encoding of 16 fresh random bytes and
whose secret is 16 further fresh random bytes. -/
theorem claim_C5 {σ : Type} (store : RedisStore σ) (sg : Signer) (now : Int)
    (req : Option Cookie) (r : RandStream) (pos : Nat) :
    (req = none → store.getTicket sg now req r pos = newTicket r pos) ∧
    (∀ ck, req = some ck →
        Validate sg now store.Secret ck store.Expire = none →
        store.getTicket sg now req r pos = newTicket r pos) ∧
    (∀ ck val ts, req = some ck →
        Validate sg now store.Secret ck store.Expire = some (val, ts) →
        decodeTicket store.Name val = none →
        store.getTicket sg now req r pos = newTicket r pos) ∧
    (∀ ck val ts t, req = some ck →
        Validate sg now store.Secret ck store.Expire = some (val, ts) →
        decodeTicket store.Name val = some t →
        store.getTicket sg now req r pos = (t, pos)) ∧
    (newTicket r pos).1.TicketID = hexEncode (randRead r pos 16) ∧
    (newTicket r pos).1.Secret = randRead r (pos + 16) 16 ∧
    (randRead r pos 16).length = 16 ∧
    (randRead r (pos + 16) 16).length = 16 ∧
    (newTicket r pos).2 = pos + 32 := by
  refine ⟨?_, ?_, ?_, ?_, rfl, rfl, randRead_length r pos 16,
    randRead_length r (pos + 16) 16, rfl⟩
  · intro h
    subst h
    rfl
  · intro ck h hv
    subst h
    simp [RedisStore.getTicket, hv]
  · intro ck val ts h hv hd
    subst h
    simp [RedisStore.getTicket, hv, hd]
  · intro ck val ts t h hv hd
    subst h
    simp [RedisStore.getTicket, hv, hd]

/-- Witness for C5: a missing cookie mints the fresh random ticket, while a
validly-signed cookie carrying the well-formed `w5Ticket` is reused as-is. -/
theorem claim_C5_witness :
    cipherStore.getTicket testSigner 6 none testRand 0 = newTicket testRand 0 ∧
    cipherStore.getTicket testSigner 6 (some w5Cookie) testRand 0 =
      (w5Ticket, 0) ∧
    (newTicket testRand 0).1.Secret = randRead testRand 16 16 := by
  refine ⟨(claim_C5 cipherStore testSigner 6 none testRand 0).1 rfl, ?_, ?_⟩
  · exact (claim_C5 cipherStore testSigner 6 (some w5Cookie) testRand 0).2.2.2.1
      w5Cookie (w5Ticket.encodeTicket ['c']) 5 w5Ticket rfl (by decide) (by decide)
  · exact (claim_C5 cipherStore testSigner 6 none testRand 0).2.2.2.2.2.1

/-- C7 counterexample: on a request cookie that fails signature validation,
`Clear` returns an error even though the backing client's delete never
fails — refuting "returns an error only when the cache delete fails" and
"an invalid pre-existing cookie is not an error".  The expired clearing
cookie is still emitted. -/
theorem claim_C7_counterexample :
    (cipherStore.Clear testSigner [] (some ⟨['c'], ['x'], 0⟩) 6).2 =
      .error "cookie signature not valid" ∧
    (cipherStore.Clear testSigner [] (some ⟨['c'], ['x'], 0⟩) 6).1.Value = [] ∧
    (cipherStore.Clear testSigner [] (some ⟨['c'], ['x'], 0⟩) 6).1.Expires < 6 := by
  exact ⟨by decide, by decide, by decide⟩

/-- C7 (amended): `Clear` always emits the expired clearing cookie first; an
absent request cookie, or a validly-signed cookie whose value does not
decode as a ticket, is not an error; `Clear` returns an error when the
cookie fails signature validation, or when the cache delete fails — and the
delete outcome is otherwise passed through. -/
theorem claim_C7_amended {σ : Type} (store : RedisStore σ) (sg : Signer)
    (st : σ) (req : Option Cookie) (now : Int) :
    (store.Clear sg st req now).1 =
      { Name := store.Name, Value := [], Expires := now + (-3600) } ∧
    (req = none → (store.Clear sg st req now).2 = .ok st) ∧
    (∀ ck, req = some ck →
        Validate sg now store.Secret ck store.Expire = none →
        (store.Clear sg st req now).2 = .error "cookie signature not valid") ∧
    (∀ ck val ts, req = some ck →
        Validate sg now store.Secret ck store.Expire = some (val, ts) →
        decodeTicket store.Name val = none →
        (store.Clear sg st req now).2 = .ok st) ∧
    (∀ ck val ts t, req = some ck →
        Validate sg now store.Secret ck store.Expire = some (val, ts) →
        decodeTicket store.Name val = some t →
        (store.Clear sg st req now).2 =
          (match store.Client.del st (t.asHandle store.Name) with
            | .ok st' => .ok st'
            | .error e =>
                .error ("error clearing cookie from redis: " ++ e))) := by
  refine ⟨?_, ?_, ?_, ?_, ?_⟩
  · cases req with
    | none => rfl
    | some ck =>
      cases hv : Validate sg now store.Secret ck store.Expire with
      | none => simp [RedisStore.Clear, RedisStore.makeCookie, hv]
      | some vt =>
        obtain ⟨val, ts⟩ := vt
        cases hd : decodeTicket store.Name val with
        | none => simp [RedisStore.Clear, RedisStore.makeCookie, hv, hd]
        | some t =>
          cases hdel : store.Client.del st (t.asHandle store.Name) with
          | error e => simp [RedisStore.Clear, RedisStore.makeCookie, hv, hd, hdel]
          | ok st' => simp [RedisStore.Clear, RedisStore.makeCookie, hv, hd, hdel]
  · intro h
    subst h
    rfl
  · intro ck h hv
    subst h
    simp [RedisStore.Clear, hv]
  · intro ck val ts h hv hd
    subst h
    simp [RedisStore.Clear, hv, hd]
  · intro ck val ts t h hv hd
    subst h
    cases hdel : store.Client.del st (t.asHandle store.Name) with
    | error e => simp [RedisStore.Clear, hv, hd, hdel]
    | ok st' => simp [RedisStore.Clear, hv, hd, hdel]

/-- Witness for C7's amended theorem: with no request cookie, `Clear`
succeeds and emits the expired empty clearing cookie. -/
theorem claim_C7_amended_witness :
    (cipherStore.Clear testSigner [] none 6).1 =
      { Name := ['c'], Value := [], Expires := 6 + (-3600) } ∧
    (cipherStore.Clear testSigner [] none 6).2 = .ok [] := by
  exact ⟨(claim_C7_amended cipherStore testSigner [] none 6).1,
         (claim_C7_amended cipherStore testSigner [] none 6).2.1 rfl⟩

/-- C10: if the request cookie passes signature validation but its value
fails to decode as a ticket, redis `Clear` still succeeds: it emits the
expired clearing cookie, leaves the cache untouched, and returns no
error. -/
theorem claim_C10 {σ : Type} (store : RedisStore σ) (sg : Signer) (st : σ)
    (now : Int) (ck : Cookie) (val : GoStr) (ts : Int)
    (hv : Validate sg now store.Secret ck store.Expire = some (val, ts))
    (hd : decodeTicket store.Name val = none) :
    store.Clear sg st (some ck) now =
      ({ Name := store.Name, Value := [], Expires := now + (-3600) }, .ok st) ∧
    (store.Clear sg st (some ck) now).1.Expires < now := by
  constructor
  · simp [RedisStore.Clear, RedisStore.makeCookie, hv, hd]
  · simp [RedisStore.Clear, RedisStore.makeCookie, hv, hd]
    try omega

/-- Witness for C10: a validly-signed cookie whose value `['z']` is not a
ticket encoding. -/
theorem claim_C10_witness :
    cipherStore.Clear testSigner [] (some w10Cookie) 6 =
      ({ Name := ['c'], Value := [], Expires := 6 + (-3600) }, .ok []) ∧
    (cipherStore.Clear testSigner [] (some w10Cookie) 6).1.Expires < 6 :=
  claim_C10 cipherStore testSigner [] 6 w10Cookie ['z'] 5 (by decide) (by decide)

/-- C9: a ticket cookie that passes signature validation and ticket
decoding but whose secret is not 16, 24 or 32 bytes long makes redis `Load`
fail — never yielding a session — with the AES key-size construction error
whenever the cache read itself succeeds; `storeValue`, when it reuses such a
ticket, fails with the AES construction error directly. -/
theorem claim_C9 {σ : Type} (store : RedisStore σ) (A : AESBlock) (sg : Signer)
    (pc : PayloadCodec) (st : σ) (now : Int) (ck : Cookie) (val : GoStr)
    (ts : Int) (t : TicketData)
    (hv : Validate sg now store.Secret ck store.Expire = some (val, ts))
    (hd : decodeTicket store.Name val = some t)
    (hlen : ¬(t.Secret.length = 16 ∨ t.Secret.length = 24 ∨
        t.Secret.length = 32)) :
    (¬∃ s, store.Load A sg pc st (some ck) now = .ok s) ∧
    (∀ bs, store.Client.get st (t.asHandle store.Name) = .ok bs →
        store.Load A sg pc st (some ck) now =
          .error ("error loading session: " ++ "crypto/aes: invalid key size")) ∧
    (∀ value exp (r : RandStream) (pos : Nat),
        store.storeValue A sg pc st now value exp (some ck) r pos =
          .error ("error initiating cipher block " ++
            "crypto/aes: invalid key size")) := by
  have haes : aesNewCipher A t.Secret = .error "crypto/aes: invalid key size" := by
    simp [aesNewCipher, hlen]
  refine ⟨?_, ?_, ?_⟩
  · rintro ⟨s, hs⟩
    simp only [RedisStore.Load, hv, RedisStore.loadSessionFromString, hd] at hs
    cases hget : store.Client.get st (t.asHandle store.Name) with
    | error e => simp [hget] at hs
    | ok bs => simp [hget, haes] at hs
  · intro bs hget
    simp [RedisStore.Load, hv, RedisStore.loadSessionFromString, hd, hget, haes]
  · intro value exp r pos
    simp [RedisStore.storeValue, RedisStore.getTicket, hv, hd, haes]

/-- Witness for C9 on `c9Ticket`, whose secret is 5 bytes long. -/
theorem claim_C9_witness :
    cipherStore.Load testAES testSigner testCodec c9Cache (some c9Cookie) 6 =
      .error ("error loading session: " ++ "crypto/aes: invalid key size") ∧
    cipherStore.storeValue testAES testSigner testCodec c9Cache 6 [] 1000
        (some c9Cookie) testRand 0 =
      .error ("error initiating cipher block " ++
        "crypto/aes: invalid key size") := by
  have h := claim_C9 cipherStore testAES testSigner testCodec c9Cache 6 c9Cookie
    (c9Ticket.encodeTicket ['c']) 5 c9Ticket (by decide) (by decide) (by decide)
  exact ⟨h.2.1 [9, 9, 9] (by decide), h.2.2 [] 1000 testRand 0⟩

/-! ## Claim C6 -/

/-- C6 counterexample: with no cookie-level cipher configured, `Save` of a
session carrying an access token succeeds and the immediate `Load` with the
issued cookie succeeds, but the loaded session has lost the token, so it
does not equal the saved session even after the empty-user default. -/
theorem claim_C6_counterexample :
    cexSaveResult = .ok (cexCookie, cexState, cexCache, 0, 32) ∧
    cexLoaded = .ok { emptySession with Email := "a@b", User := "a@b" } ∧
    { emptySession with Email := "a@b", User := "a@b" } ≠
      { cexState with
          User := if cexState.User = "" then cexState.Email
                  else cexState.User } := by
  exact ⟨rfl, by decide, by decide⟩

theorem encodeTicket_ne_nil (t : TicketData) (name : GoStr) :
    t.encodeTicket name ≠ [] := by
  simp only [TicketData.encodeTicket, TicketData.asHandle]
  intro h
  have := (List.append_eq_nil.1 h).1
  have := (List.append_eq_nil.1 this).2
  cases this

theorem encodeTicket_no_pipe (name : GoStr) (t : TicketData)
    (hname : '|' ∉ name)
    (hID : ∃ ids, hexDecode t.TicketID = some ids)
    (hS : ∀ b ∈ t.Secret, b < 256) :
    '|' ∉ t.encodeTicket name := by
  obtain ⟨ids, hids⟩ := hID
  intro hmem
  have hmem' : '|' ∈ (name ++ '-' :: t.TicketID) ++ '.' :: b64Encode t.Secret :=
    hmem
  rcases List.mem_append.1 hmem' with h1 | h1
  · rcases List.mem_append.1 h1 with h2 | h2
    · exact hname h2
    · rcases List.mem_cons.1 h2 with h3 | h3
      · exact absurd h3 (by decide)
      · exact hexDigit_ne_pipe '|' (hexDecode_chars _ _ hids '|' h3) rfl
  · rcases List.mem_cons.1 h1 with h2 | h2
    · exact absurd h2 (by decide)
    · obtain ⟨d, hd, hchd⟩ := b64Encode_chars t.Secret hS '|' h2
      exact b64Char_ne_pipe d hd hchd.symm

/-- Projection law: the list client's `set` writes through `cacheSet`. -/
theorem listClient_set (st : Cache) (k : GoStr) (v : List Nat) (ttl : Int) :
    listClient.set st k v ttl = .ok (cacheSet st k v) := rfl

/-- Projection law: the list client's `get` reads through `cacheGet`. -/
theorem listClient_get (st : Cache) (k : GoStr) :
    listClient.get st k = cacheGet st k := rfl

/-- C6 (amended): for the redis store over a healthy single-node cache,
with a configured cookie cipher, Save-then-Load within one session observes
the just-written state: a successful `Save` of `s` yields a cookie and a
cache state from which `Load` — at any time inside the cookie's validity
window — returns exactly the saved session, with an empty `User` defaulted
to `Email`; the per-ticket CFB stream decryption in `Load` inverts the
encryption done by `Save`'s `storeValue`.  (Without a cookie cipher the
loaded session retains only the identity fields — see the counterexample.) -/
theorem claim_C6_amended (cip : Cipher) (hc : CipherOK cip) (sg : Signer)
    (hsg : SignerOK sg) (A : AESBlock) (hA : AESOK A) (pc : PayloadCodec)
    (hpc : PayloadCodecOK pc) (name secret : GoStr) (hname : '|' ∉ name)
    (expire : Int) (st : Cache) (req : Option Cookie) (s : SessionState)
    (now1 : Int) (g : Nat) (r : RandStream) (pos : Nat) (ck : Cookie)
    (s' : SessionState) (st' : Cache) (g' pos' : Nat) (now2 : Int)
    (hSave : (RedisStore.mk (some cip) name secret expire listClient).Save
        A sg pc st req s now1 g r pos = .ok (ck, s', st', g', pos'))
    (hts1 : s'.CreatedAt.getD 0 ≤ now2)
    (hts2 : now2 - s'.CreatedAt.getD 0 ≤ expire) :
    (RedisStore.mk (some cip) name secret expire listClient).Load A sg pc st'
        (some ck) now2 =
      .ok { s' with User := if s'.User = "" then s'.Email else s'.User } := by
  have hwf := getTicket_wf (RedisStore.mk (some cip) name secret expire listClient)
    sg now1 req r pos
  simp only [RedisStore.Save] at hSave
  split at hSave
  · cases hSave
  rename_i tri tstr st2 p2 heq
  simp only [Except.ok.injEq, Prod.mk.injEq] at hSave
  obtain ⟨hck, hs', hst', hg', hpos'⟩ := hSave
  subst hck
  subst hs'
  subst hst'
  simp only [RedisStore.storeValue, listClient_set] at heq
  split at heq
  · cases heq
  rename_i Ek haes
  simp only [Except.ok.injEq, Prod.mk.injEq] at heq
  obtain ⟨htstr, hst2, hp2⟩ := heq
  subst htstr
  subst hst2
  simp only [aesNewCipher] at haes
  split at haes
  case isFalse => cases haes
  rename_i hk
  simp only [Except.ok.injEq] at haes
  subst haes
  set S1 := (if s.CreatedAt = none ∨ s.CreatedAt = some 0 then
      { s with CreatedAt := some now1 } else s) with hS1
  set T := ((RedisStore.mk (some cip) name secret expire listClient).getTicket
      sg now1 req r pos).1 with hT
  have hne : T.encodeTicket name ≠ [] := encodeTicket_ne_nil T name
  have hpipe : '|' ∉ T.encodeTicket name :=
    encodeTicket_no_pipe name T hname hwf.1 hwf.2
  have hcookie : (RedisStore.mk (some cip) name secret expire
      listClient).makeCookie sg (T.encodeTicket name) expire
        (S1.CreatedAt.getD 0) =
      { Name := name,
        Value := SignedValue sg secret name (T.encodeTicket name)
          (S1.CreatedAt.getD 0),
        Expires := S1.CreatedAt.getD 0 + expire } := by
    simp [RedisStore.makeCookie, hne]
  have hval := Validate_SignedValue sg hsg secret name (T.encodeTicket name)
    (S1.CreatedAt.getD 0) now2 expire (S1.CreatedAt.getD 0 + expire)
    hpipe hts1 hts2
  have hdec := decodeTicket_encodeTicket name T hwf.1 hwf.2
  have hget := cacheGet_cacheSet st (T.asHandle name)
    (cfbEncrypt (A.enc T.Secret) T.Secret
      (pc.toBytes (S1.EncodeSessionState (some cip) g).1))
  have haes2 : aesNewCipher A T.Secret = .ok (A.enc T.Secret) := by
    unfold aesNewCipher
    rw [if_pos hk]
  have hcfb := cfbDecrypt_cfbEncrypt (A.enc T.Secret) (hA T.Secret) T.Secret
    (pc.toBytes (S1.EncodeSessionState (some cip) g).1)
  have hdecode := decode_encode_some cip hc S1 g
  have hob := hpc (S1.EncodeSessionState (some cip) g).1
  simp only [RedisStore.Load, hcookie, hval, RedisStore.loadSessionFromString,
    hdec, listClient_get, hget, haes2, hcfb, hob, hdecode]

/-- Witness for C6 (amended): saving `w1Session` through the cipher-carrying
store at time 5 and loading at time 6 returns the stamped session itself. -/
theorem claim_C6_amended_witness :
    cipherStore.Load testAES testSigner testCodec w6Cache (some w6Cookie) 6 =
      .ok { w6State with
        User := if w6State.User = "" then w6State.Email else w6State.User } :=
  claim_C6_amended testCipher testCipher_ok testSigner testSigner_ok
    testAES testAES_ok testCodec testCodec_ok ['c'] ['s'] (by decide) 1000
    [] none w1Session 5 0 testRand 0 w6Cookie w6State w6Cache w6G w6Pos 6
    (by rfl) (by decide) (by decide)
